import Mathlib

/-!
Verification development for the chain inscription planner, fee estimator and
script-path Taproot signer of the `inscribe_chain` module (coin-bitcoin package).

The module is shallowly embedded: pure data (transactions, scripts, contexts)
become Lean structures, the stateful build pipeline becomes explicit state
passing with `Except` for thrown errors, and JavaScript numbers become `Int`
(satoshi amounts) and `Rat` (fee rates).  External collaborators declared out of
scope by the module (bitcoin serialization, sighash primitives, the secp256k1
Schnorr signer, WIF decoding, the adjusted-vsize calculator) are abstracted as
fields of a `Prims` record, with interface facts recorded as proof fields.
-/

namespace ChainInscribe

deriving instance DecidableEq for Except

/-- Byte strings (scripts, hashes, keys, signatures) as lists of naturals. -/
abbrev Bytes := List Nat

/-- Addresses are opaque byte strings (the source uses JS strings). -/
abbrev Address := List Nat

/-- A transaction input: previous outpoint, sequence, scriptSig and witness. -/
structure TxIn where
  prevTxHash : Bytes
  index : Nat
  sequence : Nat
  script : Bytes := []
  witness : List Bytes := []
deriving DecidableEq, Repr

/-- A transaction output: locking script and satoshi value. -/
structure TxOut where
  script : Bytes
  value : Int
deriving DecidableEq, Repr

/-- A transaction, as manipulated by the builder. -/
structure Tx where
  version : Nat
  ins : List TxIn
  outs : List TxOut
deriving DecidableEq, Repr

/-- Replace the element at index `i` (no-op when out of range), like JS array index assignment. -/
def modifyIdx {α : Type} (l : List α) (i : Nat) (f : α → α) : List α :=
  match l, i with
  | [], _ => []
  | a :: t, 0 => f a :: t
  | a :: t, n+1 => a :: modifyIdx t n f

/-- Set the witness of input `i`. -/
def Tx.setInWitness (tx : Tx) (i : Nat) (w : List Bytes) : Tx :=
  { tx with ins := modifyIdx tx.ins i (fun inp => { inp with witness := w }) }

/-- Set the scriptSig of input `i`. -/
def Tx.setInScript (tx : Tx) (i : Nat) (s : Bytes) : Tx :=
  { tx with ins := modifyIdx tx.ins i (fun inp => { inp with script := s }) }

/-- Set the value of output `i`. -/
def Tx.setOutValue (tx : Tx) (i : Nat) (v : Int) : Tx :=
  { tx with outs := modifyIdx tx.outs i (fun o => { o with value := v }) }

/-- The fee formula of `estimateFeeAndOutput`:
`Math.max(Math.ceil(vsize * feeRate), vsize)` — computed on the numerator and
denominator of the exact rational fee rate so that it reduces in the kernel.
`feeFor_eq_ceil` below shows it equals the ceiling form. -/
def feeFor (vsize : Nat) (feeRate : ℚ) : ℤ :=
  max (-((-((vsize : ℤ) * feeRate.num)) / (feeRate.den : ℤ))) (vsize : ℤ)

theorem feeFor_eq_ceil (v : Nat) (r : ℚ) :
    feeFor v r = max (Int.ceil ((v : ℚ) * r)) (v : ℤ) := by
  unfold feeFor
  congr 1
  have hden : ((r.den : ℚ)) ≠ 0 := by
    exact_mod_cast r.den_nz
  have hrd : r * (r.den : ℚ) = (r.num : ℚ) := by
    nth_rewrite 1 [← Rat.num_div_den r]
    rw [div_mul_cancel₀ _ hden]
  have hval : -((v : ℚ) * r) = (((-((v : ℤ) * r.num)) : ℤ) : ℚ) / ((r.den : ℕ) : ℚ) := by
    rw [eq_div_iff hden]
    push_cast
    rw [neg_mul, neg_inj, mul_assoc, hrd]
  have hfloor := Rat.floor_intCast_div_natCast (-((v : ℤ) * r.num)) r.den
  rw [← hval, Int.floor_neg] at hfloor
  omega

/-- A funding UTXO entry (`PrevOutput` in the source): outpoint, amount,
owning address and its WIF private key. -/
structure PrevOutput where
  txId : String
  vOut : Nat
  amount : Int
  address : Address
  privateKey : String
deriving DecidableEq, Repr

/-- One inscription payload (`InscriptionData` in the source); the content
type and body are byte strings. -/
structure InscriptionData where
  contentType : Bytes
  body : Bytes
  revealAddr : Address
deriving DecidableEq, Repr

/-- The chain inscription request (the fields the engine reads). -/
structure InscriptionRequest where
  commitTxPrevOutputList : List PrevOutput
  commitFeeRate : ℚ
  revealFeeRate : ℚ
  inscriptionDataList : List InscriptionData
  revealOutValue : Int
  changeAddress : Address
  minChangeValue : Option Int
deriving DecidableEq

/-- JavaScript `x || d` on numbers (for the values used here, `0` is the only
falsy input that occurs). -/
def jsOr (x d : Int) : Int := if x = 0 then d else x

/-- JavaScript `x || d` where `x` is an optional field. -/
def jsOrOpt (x : Option Int) (d : Int) : Int :=
  match x with
  | none => d
  | some v => jsOr v d

def DEFAULT_SEQUENCE_NUM : Nat := 0xfffffffd
def MAX_TRANSACTIONS_PER_CHAIN : Nat := 25
def DEFAULT_TX_VERSION : Nat := 2
def DEFAULT_REVEAL_OUT_VALUE : Int := 546
def DEFAULT_MIN_CHANGE_VALUE : Int := 546

/-- The external collaborators the module treats as black boxes (bitcoin
serialization, sighash primitives, the Schnorr/ECDSA signers, WIF and address
codecs, the adjusted-vsize calculator), abstracted as function fields.  The
three proof fields record interface facts taken from the specification of
those collaborators: Schnorr signatures are 64 bytes, compressed public keys
are 33 bytes, and the bech32m encoding of a P2TR output script decodes back to
that script. -/
structure Prims where
  privateKeyFromWIF : String → Bytes
  wif2Public : String → Bytes
  private2public : Bytes → Bytes
  private2Wif : Bytes → String
  getAddressType : Address → String
  toOutputScript : Address → Bytes
  fromHex : String → Bytes
  bytesHex : Bytes → String
  txHash : Tx → Bytes
  txId : Tx → String
  txHex : Tx → String
  hashForWitnessV1 : Tx → Nat → List Bytes → List Int → Nat → Option Bytes → Bytes
  hashForSignature : Tx → Nat → Bytes → Nat → Bytes
  hashForWitness : Tx → Nat → Bytes → Int → Nat → Bytes
  schnorrSign : Bytes → Bytes → Bytes → Bytes
  ecdsaSign : Bytes → Bytes → Bytes
  encodeSig : Bytes → Nat → Bytes
  p2pkhInput : Bytes → Bytes → Bytes
  hash160 : Bytes → Bytes
  taprootTweakPrivKey : Bytes → Bytes
  tapLeafHash : Nat → Bytes → Bytes
  tweakedOutputKey : Bytes → Bytes → Bytes
  tapTweakParity : Bytes → Bytes → Bool
  p2trAddress : Bytes → Address
  countAdjustedVsize : Tx → List Address → Nat
  isMainnet : Bool
  schnorrSign_len : ∀ m k a, (schnorrSign m k a).length = 64
  wif2Public_len : ∀ w, (wif2Public w).length = 33
  toOutputScript_p2trAddress : ∀ s, toOutputScript (p2trAddress s) = s

/-! ### Envelope builder -/

/-- A stack element handed to the script compiler: either an opcode number or
a data buffer. -/
inductive StackElem where
  | op (n : Nat)
  | data (b : Bytes)
deriving DecidableEq, Repr

def OP_CHECKSIG : Nat := 0xac
def OP_FALSE : Nat := 0x00
def OP_IF : Nat := 0x63
def OP_DATA_1 : Nat := 0x01
def OP_0 : Nat := 0x00
def OP_ENDIF : Nat := 0x68

/-- Modelled from the spec: the minimal data-push encoding used by the external
`bitcoin.script.compile` (spec section 6, "Ordinals envelope (bit-exact)"):
lengths below `0x4c` are a single length byte, then `OP_PUSHDATA1`/`OP_PUSHDATA2`
prefixes; the bitcoinjs-lib compiler itself is not part of this module. -/
def pushEncode (b : Bytes) : Bytes :=
  if b.length < 76 then b.length :: b
  else if b.length < 256 then 76 :: b.length :: b
  else 77 :: (b.length % 256) :: (b.length / 256) :: b

/-- Modelled from the spec: script compilation (external `bitcoin.script.compile`)
concatenates opcode bytes and minimal data pushes. -/
def compile (l : List StackElem) : Bytes :=
  l.flatMap fun e =>
    match e with
    | .op n => [n]
    | .data b => pushEncode b

/-- Helper for `chunks`: fuel-based structural recursion (the fuel is the byte
count, which bounds the number of chunks) so the definition evaluates by
kernel reduction. -/
def chunksAux : Nat → Bytes → List Bytes
  | 0, _ => []
  | _ + 1, [] => []
  | fuel + 1, a :: t => ((a :: t).take 520) :: chunksAux fuel ((a :: t).drop 520)

/-- Split the inscription body into pushes of at most 520 bytes, as the
chunking loop of `createInscriptionTxCtxData` does. -/
def chunks (b : Bytes) : List Bytes := chunksAux b.length b

/-- The stack-element sequence pushed by `createInscriptionTxCtxData` before
compilation. -/
def inscriptionBuilder (internalPubKey : Bytes) (d : InscriptionData) : List StackElem :=
  [.data internalPubKey, .op OP_CHECKSIG, .op OP_FALSE, .op OP_IF,
   .data [0x6f, 0x72, 0x64],
   .op OP_DATA_1, .op OP_DATA_1,
   .data d.contentType, .op OP_0]
  ++ (chunks d.body).map .data
  ++ [.op OP_ENDIF]

/-- The data the external `bitcoin.payments.p2tr` returns for a single-leaf
script tree. -/
structure P2trPayment where
  output : Bytes
  address : Address
  witness : List Bytes
  hash : Bytes
deriving DecidableEq, Repr

/-- Modelled from the spec: the external `bitcoin.payments.p2tr` on a
single-leaf script tree at leaf version `0xC0` (spec section 6, "Taproot"):
the TapLeaf hash of the script, the tweaked x-only output key behind a
`OP_1 0x20` output script, a control block of `0xC0 | parity` followed by the
internal key, witness suffix `[script, control_block]`, and the bech32m
address of the output script. -/
def p2tr (P : Prims) (internalPubkey : Bytes) (script : Bytes) : P2trPayment :=
  let leafHash := P.tapLeafHash 0xc0 script
  let outKey := P.tweakedOutputKey internalPubkey leafHash
  let output := [0x51, 0x20] ++ outKey
  let controlBlock :=
    (0xc0 + (if P.tapTweakParity internalPubkey leafHash then 1 else 0)) :: internalPubkey
  { output := output
    address := P.p2trAddress output
    witness := [script, controlBlock]
    hash := leafHash }

/-- Per-inscription context (`InscriptionTxCtxData` in the source). -/
structure InscriptionTxCtxData where
  privateKey : Bytes
  inscriptionScript : Bytes
  commitTxAddress : Address
  commitTxAddressPkScript : Bytes
  witness : List Bytes
  hash : Bytes
  revealPkScript : Bytes
deriving DecidableEq, Repr

/-- `createInscriptionTxCtxData`: compile the ordinals envelope for one payload
and derive the P2TR commit data from it, all keyed by the primary WIF. -/
def createInscriptionTxCtxData (P : Prims) (d : InscriptionData) (privateKeyWif : String) :
    InscriptionTxCtxData :=
  let privateKey := P.privateKeyFromWIF privateKeyWif
  let internalPubKey := (P.wif2Public privateKeyWif).drop 1
  let inscriptionScript := compile (inscriptionBuilder internalPubKey d)
  let pay := p2tr P internalPubKey inscriptionScript
  { privateKey := privateKey
    inscriptionScript := inscriptionScript
    commitTxAddress := pay.address
    commitTxAddressPkScript := pay.output
    witness := pay.witness
    hash := pay.hash
    revealPkScript := P.toOutputScript d.revealAddr }

/-! ### Funding-input signer (`signTx`) -/

/-- Sign input `i` of `tx` (the body of the `forEach` in `signTx`): taproot
key-path with the BIP341-tweaked key, legacy P2PKH, or segwit
(native/nested) ECDSA.  `aux` supplies the 32-byte auxiliary randomness
drawn for input `i`. -/
def signTxStep (P : Prims) (utxos : List PrevOutput) (aux : Nat → Bytes)
    (tx : Tx) (i : Nat) : Tx :=
  let u := utxos.getD i ⟨"", 0, 0, [], ""⟩
  let addressType := P.getAddressType u.address
  let privateKey := P.privateKeyFromWIF u.privateKey
  let publicKey := P.private2public privateKey
  if addressType = "segwit_taproot" then
    let prevOutScripts := utxos.map fun o => P.toOutputScript o.address
    let values := utxos.map (·.amount)
    let sigHash := P.hashForWitnessV1 tx i prevOutScripts values 0 none
    let signature := P.schnorrSign sigHash (P.taprootTweakPrivKey privateKey) (aux i)
    tx.setInWitness i [signature]
  else if addressType = "legacy" then
    let prevScript := P.toOutputScript u.address
    let sigHash := P.hashForSignature tx i prevScript 1
    let signature := P.ecdsaSign sigHash privateKey
    tx.setInScript i (P.p2pkhInput (P.encodeSig signature 1) publicKey)
  else
    let pubKeyHash := P.hash160 publicKey
    let prevOutScript := [0x19, 0x76, 0xa9, 0x14] ++ pubKeyHash ++ [0x88, 0xac]
    let sigHash := P.hashForWitness tx i prevOutScript u.amount 1
    let signature := P.ecdsaSign sigHash privateKey
    let tx1 := tx.setInWitness i [P.encodeSig signature 1, publicKey]
    if addressType = "segwit_nested" then tx1.setInScript i ([0x16, 0, 20] ++ pubKeyHash)
    else tx1

/-- `signTx`: sign every input of `tx` according to its funding address type. -/
def signTx (P : Prims) (tx : Tx) (commitTxPrevOutputList : List PrevOutput)
    (aux : Nat → Bytes) : Tx :=
  (List.range tx.ins.length).foldl (signTxStep P commitTxPrevOutputList aux) tx

/-! ### Fee and change estimator -/

/-- The estimator's change verdict.  The source encodes it in the returned
`changeAmount` number: an ordinary amount, the `-1` sentinel (drop the change
output), or `-Infinity` (insufficient even without change), which we embed as
a distinguished constructor. -/
inductive EstChange where
  | amt (z : Int)
  | negInf
deriving DecidableEq, Repr

/-- The estimator result: estimated fee and change verdict. -/
structure EstResult where
  fee : Int
  changeAmount : EstChange
deriving DecidableEq, Repr

/-- The errors the engine can throw.  Constructors carry the data interpolated
into the source's message strings. -/
inductive BuildErr where
  | emptyUtxoList
  | emptyInscriptionList
  | missingPrivateKey (index : Nat)
  | utxoCountInsufficient (utxoCount totalInscriptions : Nat)
  | internalSliceError
  | commitInsufficient (chainIndex : Nat)
  | noChangeAddress (chainIndex i : Nat)
  | revealInsufficient (chainIndex i : Nat)
  | nonFinalMustHaveChange (chainIndex i : Nat)
  | abnormalChange (chainIndex i : Nat)
  | estimatorNoInput
  | estimatorNoCtx
  | signNoInput (chainIndex txIndex : Nat)
  | spentIndexOutOfRange (chainIndex txIndex : Nat)
  | noContextMapping (chainIndex txIndex : Nat)
  | noContextData (chainIndex txIndex ctxIndex : Nat)
  | scriptMismatch (chainIndex txIndex : Nat)
deriving DecidableEq, Repr

/-- Populate a plausible witness on a clone of `tx` for vsize estimation:
dry-run `signTx` for the commit, or `[Zero(64), script, control_block]` for a
reveal (both passes of `estimateFeeAndOutput` do exactly this). -/
def simulateWitness (P : Prims) (tx : Tx) (inputs : List PrevOutput)
    (isCommitTx : Bool) (inscriptionCtx : Option InscriptionTxCtxData)
    (aux : Nat → Bytes) : Except BuildErr Tx :=
  if isCommitTx then .ok (signTx P tx inputs aux)
  else
    match inscriptionCtx with
    | some c =>
      if tx.ins.length > 0 then
        .ok (tx.setInWitness 0 (List.replicate 64 0 :: c.witness))
      else .error .estimatorNoInput
    | none => .error .estimatorNoCtx

/-- `estimateFeeAndOutput`: simulate a witness, size the transaction, apply the
fee floor, and decide whether the change output is kept, dropped (`amt (-1)`)
or unaffordable (`negInf`), re-sizing without the change output (index 1) in
the latter two cases. -/
def estimateFeeAndOutput (P : Prims) (tx : Tx) (inputs : List PrevOutput) (feeRate : ℚ)
    (totalInputValue fixedOutputValue minChangeValue : Int) (isCommitTx : Bool)
    (inscriptionCtx : Option InscriptionTxCtxData) (aux : Nat → Bytes) :
    Except BuildErr EstResult :=
  match simulateWitness P tx inputs isCommitTx inscriptionCtx aux with
  | .error e => .error e
  | .ok txForEstimate =>
    let vsize := P.countAdjustedVsize txForEstimate (inputs.map (·.address))
    let fee := feeFor vsize feeRate
    let changeAmount := totalInputValue - fixedOutputValue - fee
    if isCommitTx = false ∧ tx.outs.length > 1 then
      if changeAmount ≥ minChangeValue then .ok ⟨fee, .amt changeAmount⟩
      else
        match simulateWitness P { tx with outs := tx.outs.eraseIdx 1 } inputs isCommitTx
            inscriptionCtx aux with
        | .error e => .error e
        | .ok estimateTxWithoutChange =>
          let vsizeWithoutChange :=
            P.countAdjustedVsize estimateTxWithoutChange (inputs.map (·.address))
          let feeWithoutChange := feeFor vsizeWithoutChange feeRate
          if totalInputValue ≥ fixedOutputValue + feeWithoutChange then
            .ok ⟨feeWithoutChange, .amt (-1)⟩
          else
            .ok ⟨fee, .negInf⟩
    else .ok ⟨fee, .amt changeAmount⟩

/-! ### Chain assembler (`buildSingleUtxoChain`) -/

/-- A fee-ledger entry (`this.txFees` element). -/
structure FeeEntry where
  chainIndex : Nat
  txIndex : Nat
  fee : Int
deriving DecidableEq, Repr

/-- A context-map entry (`this.chainContextMapping` element); `contextIndex`
is `none` for the commit transaction. -/
structure CtxEntry where
  chainIndex : Nat
  txIndex : Nat
  contextIndex : Option Nat
deriving DecidableEq, Repr

/-- The candidate reveal transaction built by one iteration of the reveal loop
before its change value is known: one input spending `(prevTxHash, prevIdx)`,
the reveal dust output, and a zero-valued change output. -/
def revealCandidateTx (P : Prims) (ctx : InscriptionTxCtxData) (changeAddr : Address)
    (revealOutValue : Int) (prevTx : Tx) (prevIdx : Nat) : Tx :=
  { version := DEFAULT_TX_VERSION
    ins := [{ prevTxHash := P.txHash prevTx, index := prevIdx,
              sequence := DEFAULT_SEQUENCE_NUM }]
    outs := [{ script := ctx.revealPkScript, value := revealOutValue },
             { script := P.toOutputScript changeAddr, value := 0 }] }

/-- The outcome of one iteration of the reveal loop. -/
inductive RevealStep where
  | fail (e : BuildErr)
  | cont (tx : Tx) (fee : Int) (newAvail : Int)
  | stop (tx : Tx) (fee : Int) (newAvail : Int)
deriving DecidableEq, Repr

/-- One iteration of the reveal loop of `buildSingleUtxoChain`: pick the change
target (`nextCtx`'s commit address, or the final change address on the last
reveal), build the candidate, run the estimator, and either keep the change
(`cont`, available balance becomes the change), drop it on the last reveal
(`stop`, re-estimated fee, available balance `0`), or fail. -/
def revealStep (P : Prims) (chainIndex i : Nat) (revealOutValue : Int)
    (revealFeeRate : ℚ) (finalChangeAddress : Address) (minChangeValue : Int)
    (simBase : PrevOutput) (aux : Nat → Bytes)
    (ctx : InscriptionTxCtxData) (nextCtx : Option InscriptionTxCtxData)
    (prevTx : Tx) (prevVal : Int) (prevIdx : Nat) : RevealStep :=
  let isLast := nextCtx.isNone
  let currentChangeAddress :=
    match nextCtx with
    | none => finalChangeAddress
    | some c => c.commitTxAddress
  if currentChangeAddress = [] then .fail (.noChangeAddress chainIndex i)
  else
    let revealTx := revealCandidateTx P ctx currentChangeAddress revealOutValue prevTx prevIdx
    match estimateFeeAndOutput P revealTx [{ simBase with amount := prevVal }] revealFeeRate
        prevVal revealOutValue minChangeValue false (some ctx) aux with
    | .error e => .fail e
    | .ok r =>
      match r.changeAmount with
      | .negInf => .fail (.revealInsufficient chainIndex i)
      | .amt c =>
        if c = -1 then
          if isLast = false then .fail (.nonFinalMustHaveChange chainIndex i)
          else
            let txDropped : Tx := { revealTx with outs := revealTx.outs.dropLast }
            match estimateFeeAndOutput P txDropped [{ simBase with amount := prevVal }]
                revealFeeRate prevVal revealOutValue 0 false (some ctx) aux with
            | .error e => .fail e
            | .ok r2 => .stop txDropped r2.fee 0
        else if c ≥ minChangeValue then
          .cont (revealTx.setOutValue 1 c) r.fee c
        else .fail (.abnormalChange chainIndex i)

/-- The reveal loop: iterate `revealStep` over the contexts assigned to this
chain, collecting the reveal transactions and their ledger entries.  `i` is the
loop counter (transaction index `i + 1`), `ctxStart + i` the global context
index. -/
def buildReveals (P : Prims) (chainIndex : Nat) (revealOutValue : Int)
    (revealFeeRate : ℚ) (finalChangeAddress : Address) (minChangeValue : Int)
    (simBase : PrevOutput) (aux : Nat → Bytes) (ctxStart : Nat) :
    List InscriptionTxCtxData → Nat → Tx → Int → Nat →
    Except BuildErr (List Tx × List FeeEntry × List CtxEntry)
  | [], _, _, _, _ => .ok ([], [], [])
  | ctx :: rest, i, prevTx, prevVal, prevIdx =>
    match revealStep P chainIndex i revealOutValue revealFeeRate finalChangeAddress
        minChangeValue simBase aux ctx rest.head? prevTx prevVal prevIdx with
    | .fail e => .error e
    | .stop tx fee _ =>
      .ok ([tx], [⟨chainIndex, i + 1, fee⟩], [⟨chainIndex, i + 1, some (ctxStart + i)⟩])
    | .cont tx fee newAvail =>
      match buildReveals P chainIndex revealOutValue revealFeeRate finalChangeAddress
          minChangeValue simBase aux ctxStart rest (i + 1) tx newAvail 1 with
      | .error e => .error e
      | .ok (txs, fees, maps) =>
        .ok (tx :: txs, ⟨chainIndex, i + 1, fee⟩ :: fees,
             ⟨chainIndex, i + 1, some (ctxStart + i)⟩ :: maps)

/-- The initial commit transaction candidate: one input spending the funding
outpoint (RBF sequence), one output carrying the first inscription's commit
script, value to be determined. -/
def commitCandidateTx (P : Prims) (utxo : PrevOutput)
    (firstInscriptionCtx : InscriptionTxCtxData) : Tx :=
  { version := DEFAULT_TX_VERSION
    ins := [{ prevTxHash := (P.fromHex utxo.txId).reverse, index := utxo.vOut,
              sequence := DEFAULT_SEQUENCE_NUM }]
    outs := [{ script := firstInscriptionCtx.commitTxAddressPkScript, value := 0 }] }

/-- `buildSingleUtxoChain`: build the commit transaction funded by `utxo`, then
run the reveal loop; returns the chain together with its fee-ledger and
context-map entries. -/
def buildSingleUtxoChain (P : Prims) (utxo : PrevOutput)
    (inscriptions : List InscriptionTxCtxData) (revealOutValue : Int)
    (revealFeeRate : ℚ) (finalChangeAddress : Address) (minChangeValue : Int)
    (commitFeeRate : ℚ) (inscriptionCtxStartIndex chainIndex : Nat)
    (aux : Nat → Bytes) : Except BuildErr (List Tx × List FeeEntry × List CtxEntry) :=
  match inscriptions with
  | [] => .ok ([], [], [])
  | firstInscriptionCtx :: _ =>
    let initialCommitTx : Tx := commitCandidateTx P utxo firstInscriptionCtx
    match estimateFeeAndOutput P initialCommitTx [utxo] commitFeeRate utxo.amount 0
        minChangeValue true none aux with
    | .error e => .error e
    | .ok r =>
      let commitOutputAmount : Int :=
        match r.changeAmount with
        | .amt c => c
        | .negInf => -1
      if commitOutputAmount < 0 then .error (.commitInsufficient chainIndex)
      else
        let commitTxFinal := initialCommitTx.setOutValue 0 commitOutputAmount
        let simBase : PrevOutput :=
          { utxo with address := firstInscriptionCtx.commitTxAddress, privateKey := "" }
        match buildReveals P chainIndex revealOutValue revealFeeRate finalChangeAddress
            minChangeValue simBase aux inscriptionCtxStartIndex inscriptions 0
            commitTxFinal commitOutputAmount 0 with
        | .error e => .error e
        | .ok (txs, fees, maps) =>
          .ok (commitTxFinal :: txs, ⟨chainIndex, 0, r.fee⟩ :: fees,
               ⟨chainIndex, 0, none⟩ :: maps)

/-! ### Chain layout planner (`buildEnhancedInscriptionChains`) -/

/-- The sequential-fill loop: while inscriptions remain, take the next UTXO,
pack up to 24 inscriptions into a chain, and continue; fail when the UTXOs run
out. -/
def buildChainsLoop (P : Prims) (commitTxPrevOutputList : List PrevOutput)
    (ctxList : List InscriptionTxCtxData) (revealOutValue : Int) (revealFeeRate : ℚ)
    (changeAddress : Address) (minChangeValue : Int) (commitFeeRate : ℚ)
    (aux : Nat → Bytes) (inscriptionStartIndex currentUtxoIndex chainIdx : Nat) :
    Except BuildErr (List (List Tx) × List FeeEntry × List CtxEntry) :=
  if _hlt : inscriptionStartIndex < ctxList.length then
    if commitTxPrevOutputList.length ≤ currentUtxoIndex then
      .error (.utxoCountInsufficient commitTxPrevOutputList.length ctxList.length)
    else
      let utxo := commitTxPrevOutputList.getD currentUtxoIndex ⟨"", 0, 0, [], ""⟩
      let countForThisChain := min (ctxList.length - inscriptionStartIndex)
        (MAX_TRANSACTIONS_PER_CHAIN - 1)
      let seg := (ctxList.drop inscriptionStartIndex).take countForThisChain
      if seg.length = 0 ∨ seg.length ≠ countForThisChain then .error .internalSliceError
      else
        match buildSingleUtxoChain P utxo seg revealOutValue revealFeeRate changeAddress
            minChangeValue commitFeeRate inscriptionStartIndex chainIdx aux with
        | .error e => .error e
        | .ok (chain, fees, maps) =>
          match buildChainsLoop P commitTxPrevOutputList ctxList revealOutValue
              revealFeeRate changeAddress minChangeValue commitFeeRate aux
              (inscriptionStartIndex + countForThisChain) (currentUtxoIndex + 1)
              (chainIdx + (if chain.isEmpty then 0 else 1)) with
          | .error e => .error e
          | .ok (cs, fs, ms) =>
            .ok ((if chain.isEmpty then cs else chain :: cs), fees ++ fs, maps ++ ms)
  else .ok ([], [], [])
termination_by ctxList.length - inscriptionStartIndex
decreasing_by
  have h24 : 0 < MAX_TRANSACTIONS_PER_CHAIN - 1 := by decide
  omega

/-- `buildEnhancedInscriptionChains`: warn-and-return on an empty UTXO or
inscription list, otherwise run the sequential-fill loop from the start. -/
def buildEnhancedInscriptionChains (P : Prims) (commitTxPrevOutputList : List PrevOutput)
    (ctxList : List InscriptionTxCtxData) (revealOutValue : Int) (revealFeeRate : ℚ)
    (changeAddress : Address) (minChangeValue : Int) (commitFeeRate : ℚ)
    (aux : Nat → Bytes) : Except BuildErr (List (List Tx) × List FeeEntry × List CtxEntry) :=
  if commitTxPrevOutputList.length = 0 then .ok ([], [], [])
  else if ctxList.length = 0 then .ok ([], [], [])
  else
    buildChainsLoop P commitTxPrevOutputList ctxList revealOutValue revealFeeRate
      changeAddress minChangeValue commitFeeRate aux 0 0 0

/-! ### Script-path Taproot signer (`signAllTransactions`) -/

/-- Sign one reveal input (the `txIndex ≥ 1` branch of `signAllTransactions`):
check the spent output index, look up the context map, assert the context's
commit script bitwise-equals the spent output's script, then Schnorr-sign the
BIP341 script-path sighash with the raw context private key and prepend the
signature to the context witness suffix. -/
def signRevealTx (P : Prims) (ctxList : List InscriptionTxCtxData)
    (mappings : List CtxEntry) (auxReveal : Nat → Nat → Bytes)
    (chainIndex txIndex : Nat) (prevTxOutputs : List TxOut) (tx : Tx) :
    Except BuildErr Tx :=
  match tx.ins.head? with
  | none => .error (.signNoInput chainIndex txIndex)
  | some inputInfo =>
    let outputSpentIndex := inputInfo.index
    if hs : outputSpentIndex < prevTxOutputs.length then
      let prevOut := prevTxOutputs.get ⟨outputSpentIndex, hs⟩
      match mappings.find? fun m =>
          decide (m.chainIndex = chainIndex) && decide (m.txIndex = txIndex) with
      | none => .error (.noContextMapping chainIndex txIndex)
      | some mapping =>
        match mapping.contextIndex with
        | none => .error (.noContextMapping chainIndex txIndex)
        | some contextIndex =>
          match ctxList.get? contextIndex with
          | none => .error (.noContextData chainIndex txIndex contextIndex)
          | some inscriptionCtx =>
            if inscriptionCtx.commitTxAddressPkScript ≠ prevOut.script then
              .error (.scriptMismatch chainIndex txIndex)
            else
              let sigHash := P.hashForWitnessV1 tx 0 [prevOut.script] [prevOut.value] 0
                (some inscriptionCtx.hash)
              let signature := P.schnorrSign sigHash inscriptionCtx.privateKey
                (auxReveal chainIndex txIndex)
              .ok (tx.setInWitness 0 (signature :: inscriptionCtx.witness))
    else .error (.spentIndexOutOfRange chainIndex txIndex)

/-- Sign the transactions of one chain in order, threading the previous
transaction's outputs: the commit via `signTx` with the chain's funding UTXO,
every later transaction via `signRevealTx`. -/
def signChainTxs (P : Prims) (ctxList : List InscriptionTxCtxData)
    (mappings : List CtxEntry) (auxCommit : Nat → Nat → Bytes)
    (auxReveal : Nat → Nat → Bytes) (chainIndex : Nat) (initialUtxo : PrevOutput) :
    Nat → List TxOut → List Tx → Except BuildErr (List Tx)
  | _, _, [] => .ok []
  | txIndex, prevTxOutputs, tx :: rest =>
    if txIndex = 0 then
      let t := signTx P tx [initialUtxo] (auxCommit chainIndex)
      match signChainTxs P ctxList mappings auxCommit auxReveal chainIndex initialUtxo
          (txIndex + 1) t.outs rest with
      | .error e => .error e
      | .ok ts => .ok (t :: ts)
    else
      match signRevealTx P ctxList mappings auxReveal chainIndex txIndex prevTxOutputs tx with
      | .error e => .error e
      | .ok t =>
        match signChainTxs P ctxList mappings auxCommit auxReveal chainIndex initialUtxo
            (txIndex + 1) t.outs rest with
        | .error e => .error e
        | .ok ts => .ok (t :: ts)

/-- Iterate over the chains; a chain whose index has no matching UTXO, or whose
UTXO has an empty private key, is skipped (left unsigned) exactly as the
source's error-log-and-return branches do. -/
def signChainsFrom (P : Prims) (ctxList : List InscriptionTxCtxData)
    (mappings : List CtxEntry) (utxos : List PrevOutput)
    (auxCommit auxReveal : Nat → Nat → Bytes) :
    Nat → List (List Tx) → Except BuildErr (List (List Tx))
  | _, [] => .ok []
  | chainIndex, chain :: rest =>
    let signedChain : Except BuildErr (List Tx) :=
      if hc : chainIndex < utxos.length then
        let initialUtxo := utxos.get ⟨chainIndex, hc⟩
        if initialUtxo.privateKey = "" then .ok chain
        else signChainTxs P ctxList mappings auxCommit auxReveal chainIndex initialUtxo
          0 [] chain
      else .ok chain
    match signedChain with
    | .error e => .error e
    | .ok c =>
      match signChainsFrom P ctxList mappings utxos auxCommit auxReveal
          (chainIndex + 1) rest with
      | .error e => .error e
      | .ok cs => .ok (c :: cs)

/-- `signAllTransactions`: sign every chain (no-op on an empty chain list). -/
def signAllTransactions (P : Prims) (ctxList : List InscriptionTxCtxData)
    (mappings : List CtxEntry) (commitTxPrevOutputList : List PrevOutput)
    (auxCommit auxReveal : Nat → Nat → Bytes) (chains : List (List Tx)) :
    Except BuildErr (List (List Tx)) :=
  signChainsFrom P ctxList mappings commitTxPrevOutputList auxCommit auxReveal 0 chains

/-! ### Tool construction and result packaging -/

/-- The tool state after a successful build-and-sign
(`ChainInscriptionTool`'s observable fields). -/
structure ChainInscriptionTool where
  inscriptionTxCtxDataList : List InscriptionTxCtxData
  txChains : List (List Tx)
  txFees : List FeeEntry
  chainContextMapping : List CtxEntry
deriving DecidableEq

/-- The accumulated total fee equals the sum of the ledger entries (the source
adds to `totalEstimatedFee` exactly where it pushes to `txFees`). -/
def ChainInscriptionTool.totalEstimatedFee (t : ChainInscriptionTool) : Int :=
  (t.txFees.map (·.fee)).sum

/-- `newChainInscriptionTool`: apply the `|| 546` defaults, validate the
request, derive every inscription context from the primary WIF (the private
key of funding output 0), build the chains, and sign them. -/
def newChainInscriptionTool (P : Prims) (request : InscriptionRequest)
    (auxEst : Nat → Bytes) (auxCommit auxReveal : Nat → Nat → Bytes) :
    Except BuildErr ChainInscriptionTool :=
  let revealOutValue := jsOr request.revealOutValue DEFAULT_REVEAL_OUT_VALUE
  let minChangeValue := jsOrOpt request.minChangeValue DEFAULT_MIN_CHANGE_VALUE
  if request.commitTxPrevOutputList.isEmpty then .error .emptyUtxoList
  else if request.inscriptionDataList.isEmpty then .error .emptyInscriptionList
  else
    match request.commitTxPrevOutputList.findIdx? fun u => u.privateKey = "" with
    | some idx => .error (.missingPrivateKey idx)
    | none =>
      let primaryPrivateKeyWif :=
        (request.commitTxPrevOutputList.headD ⟨"", 0, 0, [], ""⟩).privateKey
      let ctxList := request.inscriptionDataList.map
        fun d => createInscriptionTxCtxData P d primaryPrivateKeyWif
      match buildEnhancedInscriptionChains P request.commitTxPrevOutputList ctxList
          revealOutValue request.revealFeeRate request.changeAddress minChangeValue
          request.commitFeeRate auxEst with
      | .error e => .error e
      | .ok (chains, fees, maps) =>
        match signAllTransactions P ctxList maps request.commitTxPrevOutputList
            auxCommit auxReveal chains with
        | .error e => .error e
        | .ok signedChains => .ok ⟨ctxList, signedChains, fees, maps⟩

/-- The per-chain RBF context record (`LastTxInfo`). -/
structure LastTxInfo where
  txId : String
  hex : String
  fee : Int
  inputTxId : String
  inputVout : Nat
  inputValue : Int
  outputs : List (String × Int)
  signingPrivateKeyWIF : String
  finalChangeAddress : Address
  revealOutValue : Int
  minChangeValue : Int
  prevInputPkScriptHex : String
  revealPkScriptHex : String
  finalChangePkScriptHex : String
  tapScriptTreeHashHex : String
  networkType : String
deriving DecidableEq

/-- The result envelope returned by `inscribeChain`. -/
structure ChainInscribeResult where
  success : Bool
  txChains : List (List String)
  txChainTxIds : List (List String)
  lastTxDetails : List LastTxInfo
  totalEstimatedFee : Int
  error : Option String
deriving DecidableEq

/-- Package one chain: its hex and txid lists, and (for chains of length at
least 2 whose final input spends an existing output) the `LastTxInfo` record. -/
def packageOne (P : Prims) (request : InscriptionRequest) (tool : ChainInscriptionTool)
    (chainIndex : Nat) (chain : List Tx) :
    List String × List String × Option LastTxInfo :=
  if chain.length < 2 then ([], [], none)
  else
    let chainHex := chain.map P.txHex
    let chainTxIds := chain.map P.txId
    let lastTxIndex := chain.length - 1
    let lastTx := chain.getLastD ⟨0, [], []⟩
    let prevTx := chain.getD (lastTxIndex - 1) ⟨0, [], []⟩
    let feeInfo := tool.txFees.find? fun f =>
      decide (f.chainIndex = chainIndex) && decide (f.txIndex = lastTxIndex)
    let lastTxFee := match feeInfo with | some f => f.fee | none => 0
    let inputInfo := lastTx.ins.headD ⟨[], 0, 0, [], []⟩
    let inputVout := inputInfo.index
    if hv : inputVout < prevTx.outs.length then
      let inputValue := (prevTx.outs.get ⟨inputVout, hv⟩).value
      let outputs := lastTx.outs.map fun o => (P.bytesHex o.script, o.value)
      let mappingInfo := tool.chainContextMapping.find? fun m =>
        decide (m.chainIndex = chainIndex) && decide (m.txIndex = lastTxIndex)
      let ctxOpt : Option InscriptionTxCtxData :=
        match mappingInfo with
        | some m =>
          match m.contextIndex with
          | some ci => tool.inscriptionTxCtxDataList.get? ci
          | none => none
        | none => none
      (chainHex, chainTxIds, some {
        txId := P.txId lastTx
        hex := P.txHex lastTx
        fee := lastTxFee
        inputTxId := P.txId prevTx
        inputVout := inputVout
        inputValue := inputValue
        outputs := outputs
        signingPrivateKeyWIF :=
          match ctxOpt with | some c => P.private2Wif c.privateKey | none => ""
        finalChangeAddress := request.changeAddress
        revealOutValue := jsOr request.revealOutValue DEFAULT_REVEAL_OUT_VALUE
        minChangeValue := jsOrOpt request.minChangeValue DEFAULT_MIN_CHANGE_VALUE
        prevInputPkScriptHex :=
          match ctxOpt with | some c => P.bytesHex c.commitTxAddressPkScript | none => ""
        revealPkScriptHex := (outputs.headD ("", 0)).1
        finalChangePkScriptHex := (outputs.getD 1 ("", 0)).1
        tapScriptTreeHashHex :=
          match ctxOpt with | some c => P.bytesHex c.hash | none => ""
        networkType := if P.isMainnet then "mainnet" else "testnet" })
    else (chainHex, chainTxIds, none)

/-- Package every chain in order. -/
def packageLoop (P : Prims) (request : InscriptionRequest)
    (tool : ChainInscriptionTool) :
    Nat → List (List Tx) → List (List String) × List (List String) × List LastTxInfo
  | _, [] => ([], [], [])
  | chainIndex, chain :: rest =>
    let one := packageOne P request tool chainIndex chain
    let further := packageLoop P request tool (chainIndex + 1) rest
    (one.1 :: further.1, one.2.1 :: further.2.1,
     match one.2.2 with
     | some d => d :: further.2.2
     | none => further.2.2)

/-- The source's error messages (the data-free renditions of the strings the
engine throws); every message is non-empty. -/
def BuildErr.message : BuildErr → String
  | .emptyUtxoList => "input error: commitTxPrevOutputList must not be empty"
  | .emptyInscriptionList => "input error: inscriptionDataList must not be empty"
  | .missingPrivateKey i => "input error: UTXO at index " ++ toString i ++ " lacks a private key"
  | .utxoCountInsufficient m n =>
    "chain inscription error: UTXO count (" ++ toString m ++
      ") insufficient for all inscriptions (" ++ toString n ++ ")"
  | .internalSliceError => "chain inscription internal error: cannot take inscription segment"
  | .commitInsufficient c =>
    "chain inscription error (chain " ++ toString c ++
      "): balance cannot cover the initial commit fee"
  | .noChangeAddress c i =>
    "chain inscription internal error (chain " ++ toString c ++ ", inscription " ++
      toString i ++ "): cannot determine the reveal change address"
  | .revealInsufficient c i =>
    "chain inscription error (chain " ++ toString c ++ ", inscription " ++ toString i ++
      "): chain broken, balance cannot cover reveal fee plus inscription output"
  | .nonFinalMustHaveChange c i =>
    "chain inscription error (chain " ++ toString c ++ ", inscription " ++ toString i ++
      "): chain broken, a non-final reveal must carry change"
  | .abnormalChange c i =>
    "chain inscription internal error (chain " ++ toString c ++ ", inscription " ++
      toString i ++ "): abnormal computed change amount"
  | .estimatorNoInput => "fee estimation internal error: reveal transaction has no input"
  | .estimatorNoCtx => "fee estimation internal error: missing inscription context"
  | .signNoInput c t =>
    "signing error (chain " ++ toString c ++ ", tx " ++ toString t ++ "): missing input"
  | .spentIndexOutOfRange c t =>
    "signing error (chain " ++ toString c ++ ", tx " ++ toString t ++
      "): spending a nonexistent output of the previous transaction"
  | .noContextMapping c t =>
    "signing error (chain " ++ toString c ++ ", tx " ++ toString t ++
      "): no inscription context mapping found"
  | .noContextData c t ci =>
    "signing error (chain " ++ toString c ++ ", tx " ++ toString t ++
      "): no inscription context at mapped index " ++ toString ci
  | .scriptMismatch c t =>
    "signing error (chain " ++ toString c ++ ", tx " ++ toString t ++
      "): spent script does not match the expected context"

/-- `inscribeChain`: run the tool; on success package every chain, on any
thrown error return the failure envelope with empty collections (JS
`error.message || fallback`). -/
def inscribeChain (P : Prims) (request : InscriptionRequest) (auxEst : Nat → Bytes)
    (auxCommit auxReveal : Nat → Nat → Bytes) : ChainInscribeResult :=
  match newChainInscriptionTool P request auxEst auxCommit auxReveal with
  | .ok tool =>
    let packed := packageLoop P request tool 0 tool.txChains
    { success := true
      txChains := packed.1
      txChainTxIds := packed.2.1
      lastTxDetails := packed.2.2
      totalEstimatedFee := tool.totalEstimatedFee
      error := none }
  | .error e =>
    { success := false
      txChains := []
      txChainTxIds := []
      lastTxDetails := []
      totalEstimatedFee := 0
      error := some (if e.message = "" then "unknown error" else e.message) }

/-! ### A concrete instantiation of the external collaborators

Used to evaluate the pipeline on closed inputs (witnesses and
counterexamples).  Hash and codec outputs are fixed small byte strings;
`countAdjustedVsize` is the constant 100; addresses are modelled as the byte
strings they decode to, so `toOutputScript` is the identity. -/

def tP : Prims where
  privateKeyFromWIF := fun _ => List.replicate 32 1
  wif2Public := fun _ => List.replicate 33 2
  private2public := fun _ => List.replicate 33 2
  private2Wif := fun _ => "wif"
  getAddressType := fun _ => "segwit"
  toOutputScript := fun a => a
  fromHex := fun _ => [3]
  bytesHex := fun _ => "bytes"
  txHash := fun _ => [4]
  txId := fun _ => "txid"
  txHex := fun _ => "txhex"
  hashForWitnessV1 := fun _ _ _ _ _ _ => [5]
  hashForSignature := fun _ _ _ _ => [6]
  hashForWitness := fun _ _ _ _ _ => [7]
  schnorrSign := fun _ _ _ => List.replicate 64 0
  ecdsaSign := fun _ _ => [8]
  encodeSig := fun s _ => s
  p2pkhInput := fun s p => s ++ p
  hash160 := fun _ => List.replicate 20 9
  taprootTweakPrivKey := fun k => 7 :: k
  tapLeafHash := fun _ _ => [10]
  tweakedOutputKey := fun k _ => k
  tapTweakParity := fun _ _ => false
  p2trAddress := fun s => s
  countAdjustedVsize := fun _ _ => 100
  isMainnet := true
  schnorrSign_len := fun _ _ _ => by simp
  wif2Public_len := fun _ => by simp
  toOutputScript_p2trAddress := fun _ => rfl

/-- A concrete inscription payload. -/
def tData : InscriptionData := ⟨[116, 101, 120, 116], [104, 105], [11, 12]⟩

/-- Its derived context under `tP` with the primary WIF `"wif0"`. -/
def tCtx : InscriptionTxCtxData := createInscriptionTxCtxData tP tData "wif0"

/-- A funding output rich enough for a one-inscription chain with retained
change (commit fee 100, reveal fee 100 under the constant-vsize oracle). -/
def tUtxo : PrevOutput := ⟨"aa", 0, 2000, [13], "wif0"⟩

/-- A funding output whose chain drops the final change output: commit output
becomes 746, and 746 - 546 - 100 = 100 < 546 forces the drop while
746 ≥ 546 + 100 keeps it affordable. -/
def tUtxoDrop : PrevOutput := ⟨"aa", 0, 846, [13], "wif0"⟩

/-- Constant auxiliary-randomness streams for the concrete runs. -/
def auxZ : Nat → Bytes := fun _ => List.replicate 32 0

def auxZ2 : Nat → Nat → Bytes := fun _ _ => List.replicate 32 0

/-! ### Estimator lemmas -/

theorem simulateWitness_reveal (P : Prims) (tx : Tx) (inputs : List PrevOutput)
    (c : InscriptionTxCtxData) (aux : Nat → Bytes) (hins : tx.ins.length > 0) :
    simulateWitness P tx inputs false (some c) aux =
      .ok (tx.setInWitness 0 (List.replicate 64 0 :: c.witness)) := by
  simp only [simulateWitness, Bool.false_eq_true, if_false, gt_iff_lt, if_pos hins]

theorem simulateWitness_error_cases (P : Prims) (tx : Tx) (inputs : List PrevOutput)
    (isCommitTx : Bool) (ctx : Option InscriptionTxCtxData) (aux : Nat → Bytes)
    (e : BuildErr) (h : simulateWitness P tx inputs isCommitTx ctx aux = .error e) :
    e = .estimatorNoInput ∨ e = .estimatorNoCtx := by
  unfold simulateWitness at h
  cases isCommitTx <;> cases ctx <;> simp_all
  all_goals split at h
  all_goals simp_all

theorem estimate_commit_eq (P : Prims) (tx : Tx) (inputs : List PrevOutput) (feeRate : ℚ)
    (totIn fixed minCh : Int) (ctx : Option InscriptionTxCtxData) (aux : Nat → Bytes) :
    estimateFeeAndOutput P tx inputs feeRate totIn fixed minCh true ctx aux =
      .ok ⟨feeFor (P.countAdjustedVsize (signTx P tx inputs aux) (inputs.map (·.address))) feeRate,
        .amt (totIn - fixed -
          feeFor (P.countAdjustedVsize (signTx P tx inputs aux) (inputs.map (·.address))) feeRate)⟩ := by
  simp [estimateFeeAndOutput, simulateWitness]

theorem estimate_reveal_retained (P : Prims) (tx : Tx) (inputs : List PrevOutput)
    (feeRate : ℚ) (totIn fixed minCh : Int) (c : InscriptionTxCtxData) (aux : Nat → Bytes)
    (hins : tx.ins.length > 0) (houts : tx.outs.length > 1)
    (hch : totIn - fixed -
      feeFor (P.countAdjustedVsize (tx.setInWitness 0 (List.replicate 64 0 :: c.witness))
        (inputs.map (·.address))) feeRate ≥ minCh) :
    estimateFeeAndOutput P tx inputs feeRate totIn fixed minCh false (some c) aux =
      .ok ⟨feeFor (P.countAdjustedVsize (tx.setInWitness 0 (List.replicate 64 0 :: c.witness))
          (inputs.map (·.address))) feeRate,
        .amt (totIn - fixed -
          feeFor (P.countAdjustedVsize (tx.setInWitness 0 (List.replicate 64 0 :: c.witness))
            (inputs.map (·.address))) feeRate)⟩ := by
  simp only [estimateFeeAndOutput, simulateWitness_reveal P tx inputs c aux hins,
    eq_self_iff_true, true_and]
  rw [if_pos houts, if_pos hch]

theorem estimate_reveal_drop (P : Prims) (tx : Tx) (inputs : List PrevOutput)
    (feeRate : ℚ) (totIn fixed minCh : Int) (c : InscriptionTxCtxData) (aux : Nat → Bytes)
    (hins : tx.ins.length > 0) (houts : tx.outs.length > 1)
    (hch : totIn - fixed -
      feeFor (P.countAdjustedVsize (tx.setInWitness 0 (List.replicate 64 0 :: c.witness))
        (inputs.map (·.address))) feeRate < minCh) :
    estimateFeeAndOutput P tx inputs feeRate totIn fixed minCh false (some c) aux =
      (if totIn ≥ fixed +
          feeFor (P.countAdjustedVsize
            ((Tx.mk tx.version tx.ins (tx.outs.eraseIdx 1)).setInWitness 0
              (List.replicate 64 0 :: c.witness)) (inputs.map (·.address))) feeRate then
        .ok ⟨feeFor (P.countAdjustedVsize
            ((Tx.mk tx.version tx.ins (tx.outs.eraseIdx 1)).setInWitness 0
              (List.replicate 64 0 :: c.witness)) (inputs.map (·.address))) feeRate,
          .amt (-1)⟩
      else
        .ok ⟨feeFor (P.countAdjustedVsize (tx.setInWitness 0 (List.replicate 64 0 :: c.witness))
            (inputs.map (·.address))) feeRate,
          .negInf⟩) := by
  have hch2 : ¬ (totIn - fixed -
      feeFor (P.countAdjustedVsize (tx.setInWitness 0 (List.replicate 64 0 :: c.witness))
        (inputs.map (·.address))) feeRate ≥ minCh) := by omega
  have hins2 : (Tx.mk tx.version tx.ins (tx.outs.eraseIdx 1)).ins.length > 0 := hins
  simp only [estimateFeeAndOutput, simulateWitness_reveal P tx inputs c aux hins,
    simulateWitness_reveal P (Tx.mk tx.version tx.ins (tx.outs.eraseIdx 1)) inputs c aux hins2,
    eq_self_iff_true, true_and]
  rw [if_pos houts, if_neg hch2]

theorem estimate_error_cases (P : Prims) (tx : Tx) (inputs : List PrevOutput)
    (feeRate : ℚ) (totIn fixed minCh : Int) (isCommitTx : Bool)
    (ctx : Option InscriptionTxCtxData) (aux : Nat → Bytes) (e : BuildErr)
    (h : estimateFeeAndOutput P tx inputs feeRate totIn fixed minCh isCommitTx ctx aux =
      .error e) :
    e = .estimatorNoInput ∨ e = .estimatorNoCtx := by
  unfold estimateFeeAndOutput at h
  split at h
  · rename_i e2 heq
    injection h with h
    subst h
    exact simulateWitness_error_cases P tx inputs isCommitTx ctx aux e2 heq
  · split at h
    · split at h
      · rename_i e2 heq2
        dsimp only at h
        split at h
        · exact absurd h (by simp)
        · injection h with h
          subst h
          exact simulateWitness_error_cases P _ inputs isCommitTx ctx aux e2 heq2
      · dsimp only at h
        split at h
        · exact absurd h (by simp)
        · split at h
          · exact absurd h (by simp)
          · exact absurd h (by simp)
    · exact absurd h (by simp)

/-! ### Error-shape lemmas for the reveal loop -/

theorem revealStep_fail_ne_commitInsufficient (P : Prims) (chainIndex i : Nat)
    (rov : Int) (rfr : ℚ) (fca : Address) (mcv : Int) (simBase : PrevOutput)
    (aux : Nat → Bytes) (ctx : InscriptionTxCtxData) (nextCtx : Option InscriptionTxCtxData)
    (prevTx : Tx) (prevVal : Int) (prevIdx : Nat) (e : BuildErr) (k : Nat)
    (h : revealStep P chainIndex i rov rfr fca mcv simBase aux ctx nextCtx prevTx
      prevVal prevIdx = .fail e) : e ≠ .commitInsufficient k := by
  intro hek
  subst hek
  revert h
  unfold revealStep
  cases nextCtx <;> dsimp only [Option.isNone] <;> repeat' split
  all_goals intro h
  all_goals try simp_all
  all_goals
    rename_i e2 heq
    rcases estimate_error_cases P _ _ _ _ _ _ _ _ _ _ heq with h2 | h2 <;> simp_all

theorem buildReveals_error_ne_commitInsufficient (P : Prims) (chainIndex : Nat)
    (rov : Int) (rfr : ℚ) (fca : Address) (mcv : Int) (simBase : PrevOutput)
    (aux : Nat → Bytes) (ctxStart : Nat) (ctxs : List InscriptionTxCtxData) :
    ∀ (i : Nat) (prevTx : Tx) (prevVal : Int) (prevIdx : Nat) (e : BuildErr) (k : Nat),
    buildReveals P chainIndex rov rfr fca mcv simBase aux ctxStart ctxs i prevTx
      prevVal prevIdx = .error e → e ≠ .commitInsufficient k := by
  induction ctxs with
  | nil =>
    intro i pT pV pI e k h
    simp [buildReveals] at h
  | cons ctx rest ih =>
    intro i pT pV pI e k h
    unfold buildReveals at h
    split at h
    · rename_i e2 hstep
      injection h with h
      subst h
      exact revealStep_fail_ne_commitInsufficient P chainIndex i rov rfr fca mcv simBase
        aux ctx rest.head? pT pV pI e2 k hstep
    · exact absurd h (by simp)
    · rename_i tx fee newAvail hstep
      split at h
      · rename_i e2 hrec
        injection h with h
        subst h
        exact ih (i + 1) tx newAvail 1 e2 k hrec
      · exact absurd h (by simp)

/-- Claim C2: every fee `estimateFeeAndOutput` computes is
`max(ceil(vsize * feerate), vsize)` (1 sat/vB floor) of the witness-simulated
transaction; a commit candidate (no change slot) always returns the first-pass
`(fee, change)` and its caller `buildSingleUtxoChain` fails exactly when that
change is negative; a reveal whose first-pass change reaches `min_change`
returns `(fee, change)`; otherwise the estimator re-sizes a clone with the
change output (index 1) removed and returns the re-estimated fee with the
`-1` drop sentinel when `total_input - fixed_output - fee2 ≥ 0`, else the
first-pass fee with the `-Infinity` sentinel. -/
theorem C2_estimateFeeAndOutput (P : Prims) (tx : Tx) (inputs : List PrevOutput)
    (feeRate : ℚ) (totIn fixed minCh : Int) (c : InscriptionTxCtxData) (aux : Nat → Bytes)
    (utxo : PrevOutput) (c0 : InscriptionTxCtxData) (rest : List InscriptionTxCtxData)
    (rov : Int) (rfr : ℚ) (chAddr : Address) (mcv : Int) (cfr : ℚ) (s k : Nat)
    (hins : tx.ins.length > 0) (houts : tx.outs.length > 1) :
    (∀ v : Nat, feeFor v feeRate = max (Int.ceil ((v : ℚ) * feeRate)) (v : ℤ))
    ∧ (estimateFeeAndOutput P tx inputs feeRate totIn fixed minCh true none aux =
        .ok ⟨feeFor (P.countAdjustedVsize (signTx P tx inputs aux) (inputs.map (·.address))) feeRate,
          .amt (totIn - fixed -
            feeFor (P.countAdjustedVsize (signTx P tx inputs aux) (inputs.map (·.address))) feeRate)⟩)
    ∧ (totIn - fixed -
          feeFor (P.countAdjustedVsize (tx.setInWitness 0 (List.replicate 64 0 :: c.witness))
            (inputs.map (·.address))) feeRate ≥ minCh →
        estimateFeeAndOutput P tx inputs feeRate totIn fixed minCh false (some c) aux =
          .ok ⟨feeFor (P.countAdjustedVsize (tx.setInWitness 0 (List.replicate 64 0 :: c.witness))
              (inputs.map (·.address))) feeRate,
            .amt (totIn - fixed -
              feeFor (P.countAdjustedVsize (tx.setInWitness 0 (List.replicate 64 0 :: c.witness))
                (inputs.map (·.address))) feeRate)⟩)
    ∧ (totIn - fixed -
          feeFor (P.countAdjustedVsize (tx.setInWitness 0 (List.replicate 64 0 :: c.witness))
            (inputs.map (·.address))) feeRate < minCh →
        estimateFeeAndOutput P tx inputs feeRate totIn fixed minCh false (some c) aux =
          (if totIn - fixed -
              feeFor (P.countAdjustedVsize
                ((Tx.mk tx.version tx.ins (tx.outs.eraseIdx 1)).setInWitness 0
                  (List.replicate 64 0 :: c.witness)) (inputs.map (·.address))) feeRate ≥ 0 then
            .ok ⟨feeFor (P.countAdjustedVsize
                ((Tx.mk tx.version tx.ins (tx.outs.eraseIdx 1)).setInWitness 0
                  (List.replicate 64 0 :: c.witness)) (inputs.map (·.address))) feeRate,
              .amt (-1)⟩
          else
            .ok ⟨feeFor (P.countAdjustedVsize (tx.setInWitness 0 (List.replicate 64 0 :: c.witness))
                (inputs.map (·.address))) feeRate,
              .negInf⟩))
    ∧ (buildSingleUtxoChain P utxo (c0 :: rest) rov rfr chAddr mcv cfr s k aux =
          .error (.commitInsufficient k) ↔
        utxo.amount - 0 -
          feeFor (P.countAdjustedVsize (signTx P (commitCandidateTx P utxo c0) [utxo] aux)
            ([utxo].map (·.address))) cfr < 0) := by
  refine ⟨fun v => feeFor_eq_ceil v feeRate, estimate_commit_eq P tx inputs feeRate totIn
    fixed minCh none aux, fun hch => estimate_reveal_retained P tx inputs feeRate totIn
    fixed minCh c aux hins houts hch, fun hch => ?_, ?_⟩
  · rw [estimate_reveal_drop P tx inputs feeRate totIn fixed minCh c aux hins houts hch]
    exact if_congr (by omega) rfl rfl
  · constructor
    · intro h
      unfold buildSingleUtxoChain at h
      dsimp only at h
      rw [estimate_commit_eq] at h
      dsimp only at h
      by_cases hneg : utxo.amount - 0 -
          feeFor (P.countAdjustedVsize (signTx P (commitCandidateTx P utxo c0) [utxo] aux)
            ([utxo].map (·.address))) cfr < 0
      · exact hneg
      · exfalso
        rw [if_neg hneg] at h
        split at h
        · rename_i e2 hrec
          injection h with h
          exact buildReveals_error_ne_commitInsufficient P k rov rfr chAddr mcv _ aux s
            (c0 :: rest) 0 _ _ 0 e2 k hrec h
        · exact absurd h (by simp)
    · intro hneg
      unfold buildSingleUtxoChain
      dsimp only
      rw [estimate_commit_eq]
      dsimp only
      rw [if_pos hneg]

/-! ### Chain-length lemmas and planner induction -/

theorem exists_ok_of_not_error {ε α : Type} (x : Except ε α)
    (h : ∀ e, x ≠ .error e) : ∃ a, x = .ok a := by
  cases x with
  | ok a => exact ⟨a, rfl⟩
  | error e => exact absurd rfl (h e)

theorem revealStep_stop_isLast (P : Prims) (chainIndex i : Nat) (rov : Int) (rfr : ℚ)
    (fca : Address) (mcv : Int) (simBase : PrevOutput) (aux : Nat → Bytes)
    (ctx : InscriptionTxCtxData) (nextCtx : Option InscriptionTxCtxData)
    (prevTx : Tx) (prevVal : Int) (prevIdx : Nat) (tx : Tx) (fee v : Int)
    (h : revealStep P chainIndex i rov rfr fca mcv simBase aux ctx nextCtx prevTx
      prevVal prevIdx = .stop tx fee v) : nextCtx = none := by
  cases nextCtx with
  | none => rfl
  | some c2 =>
    exfalso
    revert h
    unfold revealStep
    dsimp only [Option.isNone]
    repeat' split
    all_goals intro h
    all_goals simp_all

theorem buildReveals_length (P : Prims) (chainIndex : Nat) (rov : Int) (rfr : ℚ)
    (fca : Address) (mcv : Int) (simBase : PrevOutput) (aux : Nat → Bytes) (ctxStart : Nat)
    (ctxs : List InscriptionTxCtxData) :
    ∀ (i : Nat) (prevTx : Tx) (prevVal : Int) (prevIdx : Nat) txs fees maps,
    buildReveals P chainIndex rov rfr fca mcv simBase aux ctxStart ctxs i prevTx prevVal
      prevIdx = .ok (txs, fees, maps) → txs.length = ctxs.length := by
  induction ctxs with
  | nil =>
    intro i pT pV pI txs fees maps h
    simp only [buildReveals, Except.ok.injEq, Prod.mk.injEq] at h
    simp [← h.1]
  | cons ctx rest ih =>
    intro i pT pV pI txs fees maps h
    unfold buildReveals at h
    split at h
    · exact absurd h (by simp)
    · rename_i tx fee v hstep
      have hlast := revealStep_stop_isLast P chainIndex i rov rfr fca mcv simBase aux ctx
        rest.head? pT pV pI tx fee v hstep
      have hrest : rest = [] := by
        cases rest with
        | nil => rfl
        | cons a t => simp at hlast
      simp only [Except.ok.injEq, Prod.mk.injEq] at h
      subst hrest
      simp [← h.1]
    · rename_i tx fee v hstep
      split at h
      · exact absurd h (by simp)
      · rename_i txs2 fees2 maps2 hrec
        simp only [Except.ok.injEq, Prod.mk.injEq] at h
        have := ih (i + 1) tx v 1 txs2 fees2 maps2 hrec
        simp [← h.1, this]

theorem buildSingleUtxoChain_ok_length (P : Prims) (utxo : PrevOutput)
    (inscriptions : List InscriptionTxCtxData) (rov : Int) (rfr : ℚ) (fca : Address)
    (mcv : Int) (cfr : ℚ) (ctxStart chainIndex : Nat) (aux : Nat → Bytes)
    (chain : List Tx) (fees : List FeeEntry) (maps : List CtxEntry)
    (hne : inscriptions ≠ [])
    (h : buildSingleUtxoChain P utxo inscriptions rov rfr fca mcv cfr ctxStart chainIndex aux
      = .ok (chain, fees, maps)) : chain.length = 1 + inscriptions.length := by
  cases inscriptions with
  | nil => exact absurd rfl hne
  | cons c0 rest =>
    unfold buildSingleUtxoChain at h
    dsimp only at h
    rw [estimate_commit_eq] at h
    dsimp only at h
    split at h
    · exact absurd h (by simp)
    · split at h
      · exact absurd h (by simp)
      · rename_i txs fees2 maps2 hrec
        simp only [Except.ok.injEq, Prod.mk.injEq] at h
        have := buildReveals_length P chainIndex rov rfr fca mcv _ aux ctxStart (c0 :: rest)
          0 _ _ 0 txs fees2 maps2 hrec
        simp only [← h.1, List.length_cons, this]
        omega

theorem maxPerChain_sub_one : MAX_TRANSACTIONS_PER_CHAIN - 1 = 24 := rfl

theorem buildChainsLoop_base (P : Prims) (utxos : List PrevOutput)
    (ctxList : List InscriptionTxCtxData) (rov : Int) (rfr : ℚ) (chAddr : Address)
    (mcv : Int) (cfr : ℚ) (aux : Nat → Bytes) (s u c : Nat) (hs : ctxList.length ≤ s) :
    buildChainsLoop P utxos ctxList rov rfr chAddr mcv cfr aux s u c = .ok ([], [], []) := by
  unfold buildChainsLoop
  rw [dif_neg (by omega)]

theorem buildChainsLoop_ok (P : Prims) (utxos : List PrevOutput)
    (ctxList : List InscriptionTxCtxData) (rov : Int) (rfr : ℚ) (chAddr : Address)
    (mcv : Int) (cfr : ℚ) (aux : Nat → Bytes)
    (hsucc : ∀ j (hj : j < utxos.length), 24 * j < ctxList.length →
      ∃ out, buildSingleUtxoChain P (utxos.get ⟨j, hj⟩)
        ((ctxList.drop (24 * j)).take (min (ctxList.length - 24 * j) 24)) rov rfr chAddr
        mcv cfr (24 * j) j aux = .ok out)
    (hm : ctxList.length ≤ 24 * utxos.length) :
    ∀ (d k : Nat), ctxList.length - 24 * k ≤ d →
    ∃ chains fees maps,
      buildChainsLoop P utxos ctxList rov rfr chAddr mcv cfr aux (24 * k) k k
        = .ok (chains, fees, maps) ∧
      chains.length = (ctxList.length + 23) / 24 - k ∧
      ∀ j (hj : j < chains.length),
        (chains.get ⟨j, hj⟩).length = 1 + min 24 (ctxList.length - 24 * (k + j)) := by
  intro d
  induction d with
  | zero =>
    intro k hd
    refine ⟨[], [], [], buildChainsLoop_base P utxos ctxList rov rfr chAddr mcv cfr aux
      (24 * k) k k (by omega), by simp; omega, ?_⟩
    intro j hj
    simp at hj
  | succ d ih =>
    intro k hd
    by_cases hk : ctxList.length ≤ 24 * k
    · refine ⟨[], [], [], buildChainsLoop_base P utxos ctxList rov rfr chAddr mcv cfr aux
        (24 * k) k k hk, by simp; omega, ?_⟩
      intro j hj
      simp at hj
    · have hklt : 24 * k < ctxList.length := by omega
      have hkm : k < utxos.length := by omega
      obtain ⟨⟨chain, cfees, cmaps⟩, hchain⟩ := hsucc k hkm hklt
      have hseglen : ((ctxList.drop (24 * k)).take (min (ctxList.length - 24 * k) 24)).length
          = min (ctxList.length - 24 * k) 24 := by
        simp only [List.length_take, List.length_drop]
        omega
      have hne : (ctxList.drop (24 * k)).take (min (ctxList.length - 24 * k) 24) ≠ [] := by
        intro hcon
        rw [hcon] at hseglen
        simp at hseglen
        omega
      have hlen := buildSingleUtxoChain_ok_length P (utxos.get ⟨k, hkm⟩) _ rov rfr chAddr
        mcv cfr (24 * k) k aux chain cfees cmaps hne hchain
      rw [hseglen] at hlen
      have hchne : chain ≠ [] := by
        intro hcon
        rw [hcon] at hlen
        simp at hlen
        omega
      have hie : chain.isEmpty = false := by
        simp [List.isEmpty_iff]
        exact hchne
      have hget : utxos.getD k ⟨"", 0, 0, [], ""⟩ = utxos.get ⟨k, hkm⟩ := by
        simp [List.getD_eq_getElem?_getD, List.getElem?_eq_getElem hkm]
      unfold buildChainsLoop
      rw [dif_pos hklt, if_neg (by omega)]
      rw [maxPerChain_sub_one, hget]
      rw [if_neg (by rw [hseglen]; omega)]
      rw [hchain]
      dsimp only
      simp only [hie, Bool.false_eq_true, if_false]
      by_cases hfull : 24 * k + 24 ≤ ctxList.length
      · have hmin : min (ctxList.length - 24 * k) 24 = 24 := by omega
        obtain ⟨chains, fees, maps, hrec, hcount, hlens⟩ := ih (k + 1) (by omega)
        rw [show 24 * k + min (ctxList.length - 24 * k) 24 = 24 * (k + 1) by omega]
        rw [hrec]
        dsimp only
        refine ⟨chain :: chains, cfees ++ fees, cmaps ++ maps, rfl, by
          simp only [List.length_cons, hcount]; omega, ?_⟩
        intro j hj
        cases j with
        | zero =>
          simp only [List.get]
          rw [hlen]
          have : min (ctxList.length - 24 * k) 24 = min 24 (ctxList.length - 24 * (k + 0)) := by
            omega
          rw [this]
        | succ j2 =>
          simp only [List.get]
          have hj2 : j2 < chains.length := by
            simp only [List.length_cons] at hj
            omega
          have := hlens j2 hj2
          rw [this]
          congr 1
          omega
      · rw [show 24 * k + min (ctxList.length - 24 * k) 24 = ctxList.length by omega]
        rw [buildChainsLoop_base P utxos ctxList rov rfr chAddr mcv cfr aux
          ctxList.length (k + 1) (k + 1) (by omega)]
        dsimp only
        refine ⟨[chain], cfees ++ [], cmaps ++ [], rfl, by simp; omega, ?_⟩
        intro j hj
        have hj0 : j = 0 := by
          simp at hj
          exact hj
        subst hj0
        simp only [List.get]
        rw [hlen]
        have : min (ctxList.length - 24 * k) 24 = min 24 (ctxList.length - 24 * (k + 0)) := by
          omega
        rw [this]

theorem buildChainsLoop_fail (P : Prims) (utxos : List PrevOutput)
    (ctxList : List InscriptionTxCtxData) (rov : Int) (rfr : ℚ) (chAddr : Address)
    (mcv : Int) (cfr : ℚ) (aux : Nat → Bytes)
    (hsucc : ∀ j (hj : j < utxos.length), 24 * j < ctxList.length →
      ∃ out, buildSingleUtxoChain P (utxos.get ⟨j, hj⟩)
        ((ctxList.drop (24 * j)).take (min (ctxList.length - 24 * j) 24)) rov rfr chAddr
        mcv cfr (24 * j) j aux = .ok out)
    (hm : 24 * utxos.length < ctxList.length) :
    ∀ (d k : Nat), utxos.length - k ≤ d → k ≤ utxos.length →
    buildChainsLoop P utxos ctxList rov rfr chAddr mcv cfr aux (24 * k) k k
      = .error (.utxoCountInsufficient utxos.length ctxList.length) := by
  intro d
  induction d with
  | zero =>
    intro k hd hk
    have hkm : k = utxos.length := by omega
    subst hkm
    unfold buildChainsLoop
    rw [dif_pos (by omega), if_pos (by omega)]
  | succ d ih =>
    intro k hd hk
    by_cases hkm : k = utxos.length
    · subst hkm
      unfold buildChainsLoop
      rw [dif_pos (by omega), if_pos (by omega)]
    · have hklt2 : k < utxos.length := by omega
      have hklt : 24 * k < ctxList.length := by omega
      obtain ⟨⟨chain, cfees, cmaps⟩, hchain⟩ := hsucc k hklt2 hklt
      have hmin : min (ctxList.length - 24 * k) 24 = 24 := by omega
      have hseglen : ((ctxList.drop (24 * k)).take (min (ctxList.length - 24 * k) 24)).length
          = min (ctxList.length - 24 * k) 24 := by
        simp only [List.length_take, List.length_drop]
        omega
      have hne : (ctxList.drop (24 * k)).take (min (ctxList.length - 24 * k) 24) ≠ [] := by
        intro hcon
        rw [hcon] at hseglen
        simp at hseglen
        omega
      have hlen := buildSingleUtxoChain_ok_length P (utxos.get ⟨k, hklt2⟩) _ rov rfr chAddr
        mcv cfr (24 * k) k aux chain cfees cmaps hne hchain
      rw [hseglen] at hlen
      have hchne : chain ≠ [] := by
        intro hcon
        rw [hcon] at hlen
        simp at hlen
        omega
      have hie : chain.isEmpty = false := by
        simp [List.isEmpty_iff]
        exact hchne
      have hget : utxos.getD k ⟨"", 0, 0, [], ""⟩ = utxos.get ⟨k, hklt2⟩ := by
        simp [List.getD_eq_getElem?_getD, List.getElem?_eq_getElem hklt2]
      unfold buildChainsLoop
      rw [dif_pos hklt, if_neg (by omega)]
      rw [maxPerChain_sub_one, hget]
      rw [if_neg (by rw [hseglen]; omega)]
      rw [hchain]
      dsimp only
      simp only [hie, Bool.false_eq_true, if_false]
      rw [show 24 * k + min (ctxList.length - 24 * k) 24 = 24 * (k + 1) by omega]
      rw [ih (k + 1) (by omega) (by omega)]

/-! ### Claims C1 and C2: theorems, witnesses, counterexample -/

def isOkE {ε α : Type} : Except ε α → Bool
  | .ok _ => true
  | .error _ => false

theorem exists_ok_of_isOkE {ε α : Type} (x : Except ε α) (h : isOkE x = true) :
    ∃ a, x = .ok a := by
  cases x with
  | ok a => exact ⟨a, rfl⟩
  | error e => simp [isOkE] at h

/-- A concrete two-output reveal candidate under `tP`. -/
def tRevealTx : Tx := revealCandidateTx tP tCtx [7] 546 (commitCandidateTx tP tUtxo tCtx) 0

/-- Witness for C2: the commit estimator at a concrete transaction returns the
first-pass fee 100 and change 1254 = 1900 - 546 - 100. -/
theorem C2_estimateFeeAndOutput_witness :
    (tRevealTx.ins.length > 0 ∧ tRevealTx.outs.length > 1) ∧
    estimateFeeAndOutput tP tRevealTx [tUtxo] 1 1900 546 546 true none auxZ =
      .ok ⟨100, .amt 1254⟩ := by
  refine ⟨⟨by decide, by decide⟩, ?_⟩
  have h := (C2_estimateFeeAndOutput tP tRevealTx [tUtxo] 1 1900 546 546 tCtx auxZ
    tUtxo tCtx [] 546 1 [7] 546 1 0 0 (by decide) (by decide)).2.1
  rw [h]
  decide

/-- Claim C1 (amended: the failure clause requires at least one funding
output): with `n ≥ 1` inscriptions and `m` funding outputs, when
`m ≥ ceil(n/24)` and every chain's funding output covers its fees the planner
emits exactly `ceil(n/24)` chains, chain `k` carrying `min(24, n - 24k)`
inscriptions and having length `1 +` that count; when `1 ≤ m < ceil(n/24)` the
build fails with the UTXO-count-insufficient error. -/
theorem C1_buildEnhancedInscriptionChains (P : Prims) (utxos : List PrevOutput)
    (ctxList : List InscriptionTxCtxData) (rov : Int) (rfr : ℚ) (chAddr : Address)
    (mcv : Int) (cfr : ℚ) (aux : Nat → Bytes)
    (hn : 1 ≤ ctxList.length)
    (hsucc : ∀ j (hj : j < utxos.length), 24 * j < ctxList.length →
      ∃ out, buildSingleUtxoChain P (utxos.get ⟨j, hj⟩)
        ((ctxList.drop (24 * j)).take (min (ctxList.length - 24 * j) 24)) rov rfr chAddr
        mcv cfr (24 * j) j aux = .ok out) :
    ((ctxList.length + 23) / 24 ≤ utxos.length →
      ∃ chains fees maps,
        buildEnhancedInscriptionChains P utxos ctxList rov rfr chAddr mcv cfr aux
          = .ok (chains, fees, maps) ∧
        chains.length = (ctxList.length + 23) / 24 ∧
        ∀ j (hj : j < chains.length),
          (chains.get ⟨j, hj⟩).length = 1 + min 24 (ctxList.length - 24 * j))
    ∧ (1 ≤ utxos.length → utxos.length < (ctxList.length + 23) / 24 →
        buildEnhancedInscriptionChains P utxos ctxList rov rfr chAddr mcv cfr aux
          = .error (.utxoCountInsufficient utxos.length ctxList.length)) := by
  constructor
  · intro hm
    have hm24 : ctxList.length ≤ 24 * utxos.length := by omega
    obtain ⟨chains, fees, maps, hloop, hcount, hlens⟩ :=
      buildChainsLoop_ok P utxos ctxList rov rfr chAddr mcv cfr aux hsucc hm24
        ctxList.length 0 (by omega)
    have hmpos : 1 ≤ utxos.length := by omega
    refine ⟨chains, fees, maps, ?_, by omega, ?_⟩
    · unfold buildEnhancedInscriptionChains
      rw [if_neg (by omega), if_neg (by omega)]
      simpa using hloop
    · intro j hj
      simpa using hlens j hj
  · intro hm1 hm2
    have hm24 : 24 * utxos.length < ctxList.length := by omega
    unfold buildEnhancedInscriptionChains
    rw [if_neg (by omega), if_neg (by omega)]
    have := buildChainsLoop_fail P utxos ctxList rov rfr chAddr mcv cfr aux hsucc hm24
      utxos.length 0 (by omega) (by omega)
    simpa using this

/-- Witness for C1: one inscription, one sufficiently funded UTXO yields
exactly one chain of length 2. -/
theorem C1_witness :
    ∃ chains fees maps,
      buildEnhancedInscriptionChains tP [tUtxo] [tCtx] 546 1 [7] 546 1 auxZ
        = .ok (chains, fees, maps) ∧
      chains.length = (([tCtx] : List InscriptionTxCtxData).length + 23) / 24 ∧
      ∀ j (hj : j < chains.length),
        (chains.get ⟨j, hj⟩).length =
          1 + min 24 (([tCtx] : List InscriptionTxCtxData).length - 24 * j) := by
  refine (C1_buildEnhancedInscriptionChains tP [tUtxo] [tCtx] 546 1 [7] 546 1 auxZ
    (by decide) ?_).1 (by decide)
  intro j hj h24
  have hj0 : j = 0 := by
    simp at hj
    exact hj
  subst hj0
  exact exists_ok_of_isOkE (buildSingleUtxoChain tP tUtxo
    (([tCtx].drop (24 * 0)).take (min (([tCtx] : List InscriptionTxCtxData).length - 24 * 0) 24))
    546 1 [7] 546 1 (24 * 0) 0 auxZ) (by decide)

/-- Counterexample to C1 as frozen: with 1 inscription and 0 funding outputs
(`m = 0 < ceil(1/24) = 1`) the planner does not fail with the
UTXO-count-insufficient error; it warns and returns no chains (the tool-level
validation is what rejects an empty funding list, with a different error). -/
theorem C1_counterexample :
    buildEnhancedInscriptionChains tP [] [tCtx] 546 1 [7] 546 1 auxZ = .ok ([], [], []) ∧
    (Except.ok ([], [], []) :
        Except BuildErr (List (List Tx) × List FeeEntry × List CtxEntry)) ≠
      .error (.utxoCountInsufficient 0 1) := by
  exact ⟨rfl, by decide⟩

/-! ### Claim C3: change invariants -/

theorem revealStep_cont_inv (P : Prims) (chainIndex i : Nat) (rov : Int) (rfr : ℚ)
    (fca : Address) (mcv : Int) (simBase : PrevOutput) (aux : Nat → Bytes)
    (ctx : InscriptionTxCtxData) (nextCtx : Option InscriptionTxCtxData)
    (prevTx : Tx) (prevVal : Int) (prevIdx : Nat) (tx : Tx) (fee v : Int)
    (h : revealStep P chainIndex i rov rfr fca mcv simBase aux ctx nextCtx prevTx
      prevVal prevIdx = .cont tx fee v) :
    v ≥ mcv ∧
    tx.version = DEFAULT_TX_VERSION ∧
    tx.ins = [⟨P.txHash prevTx, prevIdx, DEFAULT_SEQUENCE_NUM, [], []⟩] ∧
    tx.outs = [⟨ctx.revealPkScript, rov⟩,
      ⟨P.toOutputScript (match nextCtx with
        | none => fca
        | some c2 => c2.commitTxAddress), v⟩] := by
  revert h
  unfold revealStep
  cases nextCtx <;> dsimp only [Option.isNone] <;> repeat' split
  all_goals intro h
  all_goals simp_all [revealCandidateTx, Tx.setOutValue, modifyIdx]
  all_goals rw [← h.1]
  all_goals simp_all

theorem revealStep_stop_inv (P : Prims) (chainIndex i : Nat) (rov : Int) (rfr : ℚ)
    (fca : Address) (mcv : Int) (simBase : PrevOutput) (aux : Nat → Bytes)
    (ctx : InscriptionTxCtxData) (nextCtx : Option InscriptionTxCtxData)
    (prevTx : Tx) (prevVal : Int) (prevIdx : Nat) (tx : Tx) (fee v : Int)
    (h : revealStep P chainIndex i rov rfr fca mcv simBase aux ctx nextCtx prevTx
      prevVal prevIdx = .stop tx fee v) :
    v = 0 ∧
    tx.version = DEFAULT_TX_VERSION ∧
    tx.ins = [⟨P.txHash prevTx, prevIdx, DEFAULT_SEQUENCE_NUM, [], []⟩] ∧
    tx.outs = [⟨ctx.revealPkScript, rov⟩] := by
  revert h
  unfold revealStep
  cases nextCtx <;> dsimp only [Option.isNone] <;> repeat' split
  all_goals intro h
  all_goals simp_all [revealCandidateTx, Tx.setOutValue, modifyIdx]
  all_goals rw [← h.1]
  all_goals simp_all

theorem buildReveals_change_ge (P : Prims) (chainIndex : Nat) (rov : Int) (rfr : ℚ)
    (fca : Address) (mcv : Int) (simBase : PrevOutput) (aux : Nat → Bytes) (ctxStart : Nat)
    (ctxs : List InscriptionTxCtxData) :
    ∀ (i : Nat) (prevTx : Tx) (prevVal : Int) (prevIdx : Nat) txs fees maps,
    buildReveals P chainIndex rov rfr fca mcv simBase aux ctxStart ctxs i prevTx prevVal
      prevIdx = .ok (txs, fees, maps) →
    ∀ t ∈ txs, ∀ o ∈ t.outs.drop 1, o.value ≥ mcv := by
  induction ctxs with
  | nil =>
    intro i pT pV pI txs fees maps h
    simp only [buildReveals, Except.ok.injEq, Prod.mk.injEq] at h
    rw [← h.1]
    intro t ht
    simp at ht
  | cons ctx rest ih =>
    intro i pT pV pI txs fees maps h
    unfold buildReveals at h
    split at h
    · exact absurd h (by simp)
    · rename_i tx fee v hstep
      obtain ⟨hv, hver, hins, houts⟩ := revealStep_stop_inv P chainIndex i rov rfr fca mcv
        simBase aux ctx rest.head? pT pV pI tx fee v hstep
      simp only [Except.ok.injEq, Prod.mk.injEq] at h
      rw [← h.1]
      intro t ht
      simp only [List.mem_singleton] at ht
      subst ht
      rw [houts]
      intro o ho
      simp at ho
    · rename_i tx fee v hstep
      obtain ⟨hv, hver, hins, houts⟩ := revealStep_cont_inv P chainIndex i rov rfr fca mcv
        simBase aux ctx rest.head? pT pV pI tx fee v hstep
      split at h
      · exact absurd h (by simp)
      · rename_i txs2 fees2 maps2 hrec
        simp only [Except.ok.injEq, Prod.mk.injEq] at h
        rw [← h.1]
        intro t ht
        rcases List.mem_cons.mp ht with rfl | htin
        · rw [houts]
          intro o ho
          simp only [List.drop_succ_cons, List.drop_zero, List.mem_singleton] at ho
          subst ho
          exact hv
        · exact ih (i + 1) tx v 1 txs2 fees2 maps2 hrec t htin

/-- Claim C3: in every successfully built chain, every change output retained
on a reveal transaction has value at least `min_change_value`; a
`CHANGE_DROPPED` (`-1`) estimator outcome on a non-final reveal aborts the
build with the non-final-must-carry-change error; only the final reveal may
drop its change, in which case the change output is removed, the re-estimated
fee is the one recorded, and the remaining available balance becomes `0`. -/
theorem C3_change_invariants (P : Prims) :
    (∀ (utxo : PrevOutput) (inscriptions : List InscriptionTxCtxData) (rov : Int)
      (rfr : ℚ) (fca : Address) (mcv : Int) (cfr : ℚ) (s k : Nat) (aux : Nat → Bytes)
      (chain : List Tx) (fees : List FeeEntry) (maps : List CtxEntry),
      buildSingleUtxoChain P utxo inscriptions rov rfr fca mcv cfr s k aux
        = .ok (chain, fees, maps) →
      ∀ t ∈ chain.drop 1, ∀ o ∈ t.outs.drop 1, o.value ≥ mcv)
    ∧ (∀ (chainIndex i : Nat) (rov : Int) (rfr : ℚ) (fca : Address) (mcv : Int)
      (simBase : PrevOutput) (aux : Nat → Bytes) (ctx c2 : InscriptionTxCtxData)
      (prevTx : Tx) (prevVal : Int) (prevIdx : Nat) (r : EstResult),
      c2.commitTxAddress ≠ [] →
      estimateFeeAndOutput P (revealCandidateTx P ctx c2.commitTxAddress rov prevTx prevIdx)
        [{ simBase with amount := prevVal }] rfr prevVal rov mcv false (some ctx) aux
        = .ok r →
      r.changeAmount = .amt (-1) →
      revealStep P chainIndex i rov rfr fca mcv simBase aux ctx (some c2) prevTx prevVal
        prevIdx = .fail (.nonFinalMustHaveChange chainIndex i))
    ∧ (∀ (chainIndex i : Nat) (rov : Int) (rfr : ℚ) (fca : Address) (mcv : Int)
      (simBase : PrevOutput) (aux : Nat → Bytes) (ctx : InscriptionTxCtxData)
      (prevTx : Tx) (prevVal : Int) (prevIdx : Nat) (r r2 : EstResult),
      fca ≠ [] →
      estimateFeeAndOutput P (revealCandidateTx P ctx fca rov prevTx prevIdx)
        [{ simBase with amount := prevVal }] rfr prevVal rov mcv false (some ctx) aux
        = .ok r →
      r.changeAmount = .amt (-1) →
      estimateFeeAndOutput P { revealCandidateTx P ctx fca rov prevTx prevIdx with
          outs := (revealCandidateTx P ctx fca rov prevTx prevIdx).outs.dropLast }
        [{ simBase with amount := prevVal }] rfr prevVal rov 0 false (some ctx) aux
        = .ok r2 →
      revealStep P chainIndex i rov rfr fca mcv simBase aux ctx none prevTx prevVal prevIdx
        = .stop { revealCandidateTx P ctx fca rov prevTx prevIdx with
            outs := (revealCandidateTx P ctx fca rov prevTx prevIdx).outs.dropLast }
          r2.fee 0 ∧
      (revealCandidateTx P ctx fca rov prevTx prevIdx).outs.dropLast
        = [⟨ctx.revealPkScript, rov⟩]) := by
  refine ⟨?_, ?_, ?_⟩
  · intro utxo inscriptions rov rfr fca mcv cfr s k aux chain fees maps h t ht o ho
    cases inscriptions with
    | nil =>
      simp only [buildSingleUtxoChain, Except.ok.injEq, Prod.mk.injEq] at h
      rw [← h.1] at ht
      simp at ht
    | cons c0 rest =>
      unfold buildSingleUtxoChain at h
      dsimp only at h
      rw [estimate_commit_eq] at h
      dsimp only at h
      split at h
      · exact absurd h (by simp)
      · split at h
        · exact absurd h (by simp)
        · rename_i txs fees2 maps2 hrec
          simp only [Except.ok.injEq, Prod.mk.injEq] at h
          rw [← h.1] at ht
          simp only [List.drop_succ_cons, List.drop_zero] at ht
          exact buildReveals_change_ge P k rov rfr fca mcv _ aux s (c0 :: rest) 0 _ _ 0
            txs fees2 maps2 hrec t ht o ho
  · intro chainIndex i rov rfr fca mcv simBase aux ctx c2 prevTx prevVal prevIdx r
      haddr hest hamt
    unfold revealStep
    dsimp only [Option.isNone]
    rw [if_neg haddr, hest]
    dsimp only
    rw [hamt]
    dsimp only
    rw [if_pos rfl, if_pos rfl]
  · intro chainIndex i rov rfr fca mcv simBase aux ctx prevTx prevVal prevIdx r r2
      haddr hest hamt hest2
    constructor
    · unfold revealStep
      dsimp only [Option.isNone]
      rw [if_neg haddr, hest]
      dsimp only
      rw [hamt]
      dsimp only
      rw [if_pos rfl, if_neg (by simp), hest2]
    · simp [revealCandidateTx]

/-- Concrete prev transaction and simulated-input base for the step witnesses. -/
def tCommitTx : Tx := commitCandidateTx tP tUtxoDrop tCtx

def tSimBase : PrevOutput := { tUtxoDrop with address := tCtx.commitTxAddress, privateKey := "" }

/-- Witness for C3: a concrete non-final reveal step whose estimator returns
the drop sentinel aborts with the non-final-must-carry-change error. -/
theorem C3_witness :
    (tCtx.commitTxAddress ≠ ([] : Address)) ∧
    (estimateFeeAndOutput tP
        (revealCandidateTx tP tCtx tCtx.commitTxAddress 546 tCommitTx 0)
        [{ tSimBase with amount := 746 }] 1 746 546 546 false (some tCtx) auxZ
      = .ok ⟨100, .amt (-1)⟩) ∧
    revealStep tP 0 0 546 1 [7] 546 tSimBase auxZ tCtx (some tCtx) tCommitTx 746 0
      = .fail (.nonFinalMustHaveChange 0 0) := by
  refine ⟨by decide, by decide, ?_⟩
  exact (C3_change_invariants tP).2.1 0 0 546 1 [7] 546 tSimBase auxZ tCtx tCtx tCommitTx
    746 0 ⟨100, .amt (-1)⟩ (by decide) (by decide) (by decide)

/-! ### Claim C4: outpoint continuity and output ordering -/

/-- Structural well-formedness of the reveal segment of a chain relative to
the transaction it starts spending (`prevTx` at vout `prevIdx`): every reveal
has exactly one input spending the previous transaction's change-bearing
output (vout 0 for the commit, 1 afterwards), version 2 and the RBF sequence,
and outputs ordered reveal-dust-then-change where the change script is the
next inscription's commit address script for non-final reveals and the final
change address script (or no change output at all) for the final reveal. -/
def revealsWellFormed (P : Prims) (rov : Int) (fca : Address) :
    Tx → Nat → List InscriptionTxCtxData → List Tx → Prop
  | _, _, [], [] => True
  | prevTx, prevIdx, ctx :: restC, t :: restT =>
    t.version = DEFAULT_TX_VERSION ∧
    t.ins = [⟨P.txHash prevTx, prevIdx, DEFAULT_SEQUENCE_NUM, [], []⟩] ∧
    (match restC with
     | next :: _ =>
       ∃ c, t.outs = [⟨ctx.revealPkScript, rov⟩,
         ⟨P.toOutputScript next.commitTxAddress, c⟩]
     | [] =>
       (∃ c, t.outs = [⟨ctx.revealPkScript, rov⟩, ⟨P.toOutputScript fca, c⟩]) ∨
       t.outs = [⟨ctx.revealPkScript, rov⟩]) ∧
    revealsWellFormed P rov fca t 1 restC restT
  | _, _, _, _ => False

theorem buildReveals_wellFormed (P : Prims) (chainIndex : Nat) (rov : Int) (rfr : ℚ)
    (fca : Address) (mcv : Int) (simBase : PrevOutput) (aux : Nat → Bytes) (ctxStart : Nat)
    (ctxs : List InscriptionTxCtxData) :
    ∀ (i : Nat) (prevTx : Tx) (prevVal : Int) (prevIdx : Nat) txs fees maps,
    buildReveals P chainIndex rov rfr fca mcv simBase aux ctxStart ctxs i prevTx prevVal
      prevIdx = .ok (txs, fees, maps) →
    revealsWellFormed P rov fca prevTx prevIdx ctxs txs := by
  induction ctxs with
  | nil =>
    intro i pT pV pI txs fees maps h
    simp only [buildReveals, Except.ok.injEq, Prod.mk.injEq] at h
    rw [← h.1]
    trivial
  | cons ctx rest ih =>
    intro i pT pV pI txs fees maps h
    unfold buildReveals at h
    split at h
    · exact absurd h (by simp)
    · rename_i tx fee v hstep
      have hlast := revealStep_stop_isLast P chainIndex i rov rfr fca mcv simBase aux ctx
        rest.head? pT pV pI tx fee v hstep
      have hrest : rest = [] := by
        cases rest with
        | nil => rfl
        | cons a t => simp at hlast
      obtain ⟨hv, hver, hins, houts⟩ := revealStep_stop_inv P chainIndex i rov rfr fca mcv
        simBase aux ctx rest.head? pT pV pI tx fee v hstep
      subst hrest
      simp only [Except.ok.injEq, Prod.mk.injEq] at h
      rw [← h.1]
      exact ⟨hver, hins, Or.inr houts, trivial⟩
    · rename_i tx fee v hstep
      obtain ⟨hv, hver, hins, houts⟩ := revealStep_cont_inv P chainIndex i rov rfr fca mcv
        simBase aux ctx rest.head? pT pV pI tx fee v hstep
      split at h
      · exact absurd h (by simp)
      · rename_i txs2 fees2 maps2 hrec
        simp only [Except.ok.injEq, Prod.mk.injEq] at h
        rw [← h.1]
        refine ⟨hver, hins, ?_, ih (i + 1) tx v 1 txs2 fees2 maps2 hrec⟩
        cases rest with
        | nil =>
          simp only [List.head?] at houts
          exact Or.inl ⟨v, houts⟩
        | cons next t =>
          simp only [List.head?] at houts
          exact ⟨v, houts⟩

/-- Claim C4: in every built chain, each reveal has exactly one input spending
the previous transaction's change-bearing output (vout 0 off the commit, vout
1 afterwards), with outputs ordered reveal-dust-then-change; the change
script is the next inscription's commit script for non-final reveals and the
final change address script for the final reveal (when it carries change).
For contexts produced by `createInscriptionTxCtxData`, the commit address
encodes exactly the commit output script, so the non-final change script
bitwise-equals the next inscription's `commitTxAddressPkScript`. -/
theorem C4_chain_structure (P : Prims) (utxo : PrevOutput)
    (inscriptions : List InscriptionTxCtxData) (rov : Int) (rfr : ℚ) (fca : Address)
    (mcv : Int) (cfr : ℚ) (s k : Nat) (aux : Nat → Bytes)
    (chain : List Tx) (fees : List FeeEntry) (maps : List CtxEntry)
    (hne : inscriptions ≠ [])
    (h : buildSingleUtxoChain P utxo inscriptions rov rfr fca mcv cfr s k aux
      = .ok (chain, fees, maps)) :
    (∃ commitTx reveals, chain = commitTx :: reveals ∧
      revealsWellFormed P rov fca commitTx 0 inscriptions reveals)
    ∧ (∀ (d : InscriptionData) (wif : String),
      P.toOutputScript (createInscriptionTxCtxData P d wif).commitTxAddress
        = (createInscriptionTxCtxData P d wif).commitTxAddressPkScript) := by
  constructor
  · cases inscriptions with
    | nil => exact absurd rfl hne
    | cons c0 rest =>
      unfold buildSingleUtxoChain at h
      dsimp only at h
      rw [estimate_commit_eq] at h
      dsimp only at h
      split at h
      · exact absurd h (by simp)
      · split at h
        · exact absurd h (by simp)
        · rename_i txs fees2 maps2 hrec
          simp only [Except.ok.injEq, Prod.mk.injEq] at h
          refine ⟨_, txs, by rw [← h.1], ?_⟩
          exact buildReveals_wellFormed P k rov rfr fca mcv _ aux s (c0 :: rest) 0 _ _ 0
            txs fees2 maps2 hrec
  · intro d wif
    simp [createInscriptionTxCtxData, p2tr, P.toOutputScript_p2trAddress]

/-- The concrete one-inscription chain built by `tP`. -/
def tBuild : Except BuildErr (List Tx × List FeeEntry × List CtxEntry) :=
  buildSingleUtxoChain tP tUtxo [tCtx] 546 1 [7] 546 1 0 0 auxZ

def tChain : List Tx :=
  match tBuild with
  | .ok (c, _, _) => c
  | .error _ => []

def tFeesLedger : List FeeEntry :=
  match tBuild with
  | .ok (_, f, _) => f
  | .error _ => []

def tMaps : List CtxEntry :=
  match tBuild with
  | .ok (_, _, m) => m
  | .error _ => []

/-- Witness for C4 at the concrete one-inscription chain. -/
theorem C4_witness :
    (([tCtx] : List InscriptionTxCtxData) ≠ []) ∧
    (buildSingleUtxoChain tP tUtxo [tCtx] 546 1 [7] 546 1 0 0 auxZ
      = .ok (tChain, tFeesLedger, tMaps)) ∧
    ∃ commitTx reveals, tChain = commitTx :: reveals ∧
      revealsWellFormed tP 546 [7] commitTx 0 [tCtx] reveals := by
  refine ⟨by decide, by decide, ?_⟩
  exact (C4_chain_structure tP tUtxo [tCtx] 546 1 [7] 546 1 0 0 auxZ tChain tFeesLedger
    tMaps (by decide) (by decide)).1

/-! ### Claims C5 and C6: the script-path signer -/

/-- Claim C5: a successfully signed reveal input carries exactly the
three-element witness `[sig, inscription_script, control_block]`, where `sig`
is the 64-byte Schnorr signature over
`hashForWitnessV1(0, [prev_script], [prev_value], SIGHASH_DEFAULT, leaf_hash)`
made with the raw, untweaked decoded WIF key, the control block is 33 bytes,
and — by contrast — the funding-input P2TR key path of `signTx` signs with the
BIP341-tweaked private key. -/
theorem C5_reveal_witness_shape (P : Prims) (d : InscriptionData) (wif : String)
    (ctxList : List InscriptionTxCtxData) (mappings : List CtxEntry)
    (auxReveal : Nat → Nat → Bytes) (chainIndex txIndex : Nat)
    (prevTxOutputs : List TxOut) (tx : Tx) (inputInfo : TxIn) (a b ci : Nat)
    (hinput : tx.ins.head? = some inputInfo)
    (hspent : inputInfo.index < prevTxOutputs.length)
    (hmap : mappings.find? (fun m =>
        decide (m.chainIndex = chainIndex) && decide (m.txIndex = txIndex))
      = some ⟨a, b, some ci⟩)
    (hctx : ctxList.get? ci = some (createInscriptionTxCtxData P d wif))
    (hmatch : (createInscriptionTxCtxData P d wif).commitTxAddressPkScript
      = (prevTxOutputs.get ⟨inputInfo.index, hspent⟩).script) :
    (signRevealTx P ctxList mappings auxReveal chainIndex txIndex prevTxOutputs tx
      = .ok (tx.setInWitness 0
          [P.schnorrSign
            (P.hashForWitnessV1 tx 0 [(prevTxOutputs.get ⟨inputInfo.index, hspent⟩).script]
              [(prevTxOutputs.get ⟨inputInfo.index, hspent⟩).value] 0
              (some (createInscriptionTxCtxData P d wif).hash))
            (P.privateKeyFromWIF wif)
            (auxReveal chainIndex txIndex),
          (createInscriptionTxCtxData P d wif).inscriptionScript,
          (0xc0 + (if P.tapTweakParity ((P.wif2Public wif).drop 1)
              (P.tapLeafHash 0xc0 (createInscriptionTxCtxData P d wif).inscriptionScript)
            then 1 else 0)) :: (P.wif2Public wif).drop 1]))
    ∧ (∀ m k x, (P.schnorrSign m k x).length = 64)
    ∧ ((0xc0 + (if P.tapTweakParity ((P.wif2Public wif).drop 1)
          (P.tapLeafHash 0xc0 (createInscriptionTxCtxData P d wif).inscriptionScript)
        then 1 else 0)) :: (P.wif2Public wif).drop 1).length = 33
    ∧ (∀ (tx2 : Tx) (u : PrevOutput) (aux2 : Nat → Bytes),
        P.getAddressType u.address = "segwit_taproot" → tx2.ins.length = 1 →
        signTx P tx2 [u] aux2 = tx2.setInWitness 0
          [P.schnorrSign (P.hashForWitnessV1 tx2 0 [P.toOutputScript u.address] [u.amount] 0 none)
            (P.taprootTweakPrivKey (P.privateKeyFromWIF u.privateKey)) (aux2 0)]) := by
  refine ⟨?_, P.schnorrSign_len, ?_, ?_⟩
  · unfold signRevealTx
    rw [hinput]
    dsimp only
    rw [dif_pos hspent, hmap]
    dsimp only
    rw [hctx]
    dsimp only
    rw [if_neg (by simp [hmatch])]
    have hwit : (createInscriptionTxCtxData P d wif).witness =
        [(createInscriptionTxCtxData P d wif).inscriptionScript,
         (0xc0 + (if P.tapTweakParity ((P.wif2Public wif).drop 1)
             (P.tapLeafHash 0xc0 (createInscriptionTxCtxData P d wif).inscriptionScript)
           then 1 else 0)) :: (P.wif2Public wif).drop 1] := by
      simp [createInscriptionTxCtxData, p2tr]
    have hpriv : (createInscriptionTxCtxData P d wif).privateKey = P.privateKeyFromWIF wif := rfl
    rw [hwit, hpriv]
  · simp [List.length_drop, P.wif2Public_len]
  · intro tx2 u aux2 htype hlen
    unfold signTx
    rw [hlen]
    rw [show List.range 1 = [0] from rfl]
    simp only [List.foldl_cons, List.foldl_nil]
    unfold signTxStep
    simp [htype]

/-- Claim C6: the reveal signer throws when the looked-up context's commit
script is not bitwise-equal to the spent output's script, and when no context
map entry exists for the position; either error aborts the per-chain signing
loop, so no signature is produced for that input. -/
theorem C6_script_mismatch (P : Prims) (ctxList : List InscriptionTxCtxData)
    (mappings : List CtxEntry) (auxCommit auxReveal : Nat → Nat → Bytes)
    (chainIndex txIndex : Nat) (prevTxOutputs : List TxOut) (tx : Tx) (inputInfo : TxIn)
    (hinput : tx.ins.head? = some inputInfo)
    (hspent : inputInfo.index < prevTxOutputs.length) :
    (mappings.find? (fun m =>
        decide (m.chainIndex = chainIndex) && decide (m.txIndex = txIndex)) = none →
      signRevealTx P ctxList mappings auxReveal chainIndex txIndex prevTxOutputs tx
        = .error (.noContextMapping chainIndex txIndex))
    ∧ (∀ (a b ci : Nat) (ctx : InscriptionTxCtxData),
      mappings.find? (fun m =>
          decide (m.chainIndex = chainIndex) && decide (m.txIndex = txIndex))
        = some ⟨a, b, some ci⟩ →
      ctxList.get? ci = some ctx →
      ctx.commitTxAddressPkScript ≠ (prevTxOutputs.get ⟨inputInfo.index, hspent⟩).script →
      signRevealTx P ctxList mappings auxReveal chainIndex txIndex prevTxOutputs tx
        = .error (.scriptMismatch chainIndex txIndex))
    ∧ (∀ (e : BuildErr) (initialUtxo : PrevOutput) (rest : List Tx),
      txIndex ≠ 0 →
      signRevealTx P ctxList mappings auxReveal chainIndex txIndex prevTxOutputs tx
        = .error e →
      signChainTxs P ctxList mappings auxCommit auxReveal chainIndex initialUtxo
        txIndex prevTxOutputs (tx :: rest) = .error e) := by
  refine ⟨?_, ?_, ?_⟩
  · intro hfind
    unfold signRevealTx
    rw [hinput]
    dsimp only
    rw [dif_pos hspent, hfind]
  · intro a b ci ctx hfind hctx hne
    unfold signRevealTx
    rw [hinput]
    dsimp only
    rw [dif_pos hspent, hfind]
    dsimp only
    rw [hctx]
    dsimp only
    rw [if_pos hne]
  · intro e initialUtxo rest h0 herr
    unfold signChainTxs
    rw [if_neg h0, herr]

/-- A context whose commit script has been corrupted. -/
def tCtxCorrupt : InscriptionTxCtxData := { tCtx with commitTxAddressPkScript := [9] }

/-- Witness for C6: corrupting the context's commit script makes concrete
signing of the reveal fail with the script-mismatch error. -/
theorem C6_witness :
    (tRevealTx.ins.head? = some ⟨[4], 0, DEFAULT_SEQUENCE_NUM, [], []⟩) ∧
    signRevealTx tP [tCtxCorrupt] [⟨0, 1, some 0⟩] auxZ2 0 1
      [⟨tCtx.commitTxAddressPkScript, 1900⟩] tRevealTx
      = .error (.scriptMismatch 0 1) := by
  refine ⟨by decide, ?_⟩
  exact (C6_script_mismatch tP [tCtxCorrupt] [⟨0, 1, some 0⟩] auxZ2 auxZ2 0 1
    [⟨tCtx.commitTxAddressPkScript, 1900⟩] tRevealTx ⟨[4], 0, DEFAULT_SEQUENCE_NUM, [], []⟩
    (by decide) (by decide)).2.1 0 1 0 tCtxCorrupt (by decide) (by decide) (by decide)

/-- Witness for C5: the concrete reveal input is signed with the expected
three-element witness. -/
theorem C5_witness :
    signRevealTx tP [tCtx] [⟨0, 1, some 0⟩] auxZ2 0 1
      [⟨tCtx.commitTxAddressPkScript, 1900⟩] tRevealTx
      = .ok (tRevealTx.setInWitness 0
          [List.replicate 64 0, tCtx.inscriptionScript,
           (0xc0 : Nat) :: List.replicate 32 2]) := by
  have h := (C5_reveal_witness_shape tP tData "wif0" [tCtx] [⟨0, 1, some 0⟩] auxZ2 0 1
    [⟨tCtx.commitTxAddressPkScript, 1900⟩] tRevealTx ⟨[4], 0, DEFAULT_SEQUENCE_NUM, [], []⟩
    0 1 0 (by decide) (by decide) (by decide) (by decide) (by decide)).1
  rw [h]
  decide

/-! ### Claim C7: failure envelope -/

/-- Claim C7: whenever validation, build or signing throws, `inscribeChain`
returns success `false`, a non-empty error message, and empty collections with
zero total fee; no partially built chains are exposed.  The last two conjuncts
record the validation triggers for empty funding and inscription lists. -/
theorem C7_failure_envelope (P : Prims) (request : InscriptionRequest)
    (auxEst : Nat → Bytes) (auxCommit auxReveal : Nat → Nat → Bytes) (e : BuildErr)
    (h : newChainInscriptionTool P request auxEst auxCommit auxReveal = .error e) :
    (inscribeChain P request auxEst auxCommit auxReveal =
      { success := false, txChains := [], txChainTxIds := [], lastTxDetails := [],
        totalEstimatedFee := 0,
        error := some (if e.message = "" then "unknown error" else e.message) })
    ∧ (∀ msg, (inscribeChain P request auxEst auxCommit auxReveal).error = some msg →
        msg ≠ "")
    ∧ (request.commitTxPrevOutputList = [] →
        newChainInscriptionTool P request auxEst auxCommit auxReveal
          = .error .emptyUtxoList)
    ∧ (request.commitTxPrevOutputList ≠ [] → request.inscriptionDataList = [] →
        newChainInscriptionTool P request auxEst auxCommit auxReveal
          = .error .emptyInscriptionList) := by
  have henv : inscribeChain P request auxEst auxCommit auxReveal =
      { success := false, txChains := [], txChainTxIds := [], lastTxDetails := [],
        totalEstimatedFee := 0,
        error := some (if e.message = "" then "unknown error" else e.message) } := by
    unfold inscribeChain
    rw [h]
  refine ⟨henv, ?_, ?_, ?_⟩
  · intro msg hmsg
    rw [henv] at hmsg
    simp only [Option.some.injEq] at hmsg
    by_cases hem : e.message = ""
    · rw [← hmsg, if_pos hem]
      decide
    · rw [← hmsg, if_neg hem]
      exact hem
  · intro hempty
    unfold newChainInscriptionTool
    simp [hempty]
  · intro hne hempty
    unfold newChainInscriptionTool
    simp [hempty, List.isEmpty_iff, hne]

/-- A request with an empty funding-output list. -/
def reqEmpty : InscriptionRequest := ⟨[], 1, 1, [tData], 546, [7], some 546⟩

/-- Witness for C7: the empty-funding-list request produces the failure
envelope with empty collections and zero fee. -/
theorem C7_witness :
    (newChainInscriptionTool tP reqEmpty auxZ auxZ2 auxZ2 = .error .emptyUtxoList) ∧
    inscribeChain tP reqEmpty auxZ auxZ2 auxZ2 =
      { success := false, txChains := [], txChainTxIds := [], lastTxDetails := [],
        totalEstimatedFee := 0,
        error := some (BuildErr.emptyUtxoList.message) } := by
  refine ⟨by decide, ?_⟩
  rw [(C7_failure_envelope tP reqEmpty auxZ auxZ2 auxZ2 .emptyUtxoList (by decide)).1]
  decide

/-! ### Claim C8: the compiled envelope -/

theorem flatMap_data_pushEncode (l : List Bytes) :
    (l.map StackElem.data).flatMap
      (fun e => match e with | StackElem.op n => [n] | StackElem.data b => pushEncode b)
      = l.flatMap pushEncode := by
  induction l with
  | nil => rfl
  | cons a t ih => simp_all

theorem chunksAux_flatten : ∀ (fuel : Nat) (b : Bytes), b.length ≤ fuel →
    (chunksAux fuel b).flatten = b := by
  intro fuel
  induction fuel with
  | zero =>
    intro b h
    cases b with
    | nil => rfl
    | cons a t => simp at h
  | succ f ih =>
    intro b h
    cases b with
    | nil => rfl
    | cons a t =>
      simp only [chunksAux, List.flatten_cons]
      rw [ih ((a :: t).drop 520) (by simp only [List.length_drop, List.length_cons]; simp at h; omega)]
      exact List.take_append_drop 520 (a :: t)

theorem chunksAux_le : ∀ (fuel : Nat) (b c : Bytes), c ∈ chunksAux fuel b →
    c.length ≤ 520 := by
  intro fuel
  induction fuel with
  | zero =>
    intro b c h
    simp [chunksAux] at h
  | succ f ih =>
    intro b c h
    cases b with
    | nil => simp [chunksAux] at h
    | cons a t =>
      simp only [chunksAux, List.mem_cons] at h
      rcases h with rfl | h
      · simp
      · exact ih _ c h

/-- Claim C8: the compiled envelope script is exactly the push of the primary
key's x-only public key, `OP_CHECKSIG`, `OP_FALSE`, `OP_IF`, the push of
"ord", the two literal `OP_DATA_1` (0x01) bytes, the content-type push,
`OP_0`, the pushes of the body split into chunks of at most 520 bytes, and
`OP_ENDIF`; the commit address, output script, witness suffix and TapLeaf
hash come from the single-leaf `p2tr` derivation at leaf version 0xC0; and
the tool derives every context from funding output 0's private key. -/
theorem C8_envelope (P : Prims) (d : InscriptionData) (wif : String) :
    ((createInscriptionTxCtxData P d wif).inscriptionScript =
      pushEncode ((P.wif2Public wif).drop 1) ++ [OP_CHECKSIG, OP_FALSE, OP_IF]
        ++ pushEncode [0x6f, 0x72, 0x64] ++ [OP_DATA_1, OP_DATA_1]
        ++ pushEncode d.contentType ++ [OP_0]
        ++ (chunks d.body).flatMap pushEncode ++ [OP_ENDIF])
    ∧ ((chunks d.body).flatten = d.body ∧ ∀ c ∈ chunks d.body, c.length ≤ 520)
    ∧ (createInscriptionTxCtxData P d wif =
        { privateKey := P.privateKeyFromWIF wif
          inscriptionScript := (createInscriptionTxCtxData P d wif).inscriptionScript
          commitTxAddress := (p2tr P ((P.wif2Public wif).drop 1)
            (createInscriptionTxCtxData P d wif).inscriptionScript).address
          commitTxAddressPkScript := (p2tr P ((P.wif2Public wif).drop 1)
            (createInscriptionTxCtxData P d wif).inscriptionScript).output
          witness := (p2tr P ((P.wif2Public wif).drop 1)
            (createInscriptionTxCtxData P d wif).inscriptionScript).witness
          hash := P.tapLeafHash 0xc0 (createInscriptionTxCtxData P d wif).inscriptionScript
          revealPkScript := P.toOutputScript d.revealAddr })
    ∧ (∀ (request : InscriptionRequest) (auxEst : Nat → Bytes)
        (auxCommit auxReveal : Nat → Nat → Bytes) (tool : ChainInscriptionTool),
        newChainInscriptionTool P request auxEst auxCommit auxReveal = .ok tool →
        tool.inscriptionTxCtxDataList = request.inscriptionDataList.map
          (fun d2 => createInscriptionTxCtxData P d2
            (request.commitTxPrevOutputList.headD ⟨"", 0, 0, [], ""⟩).privateKey)) := by
  refine ⟨?_, ⟨chunksAux_flatten d.body.length d.body le_rfl,
    fun c hc => chunksAux_le d.body.length d.body c hc⟩, rfl, ?_⟩
  · simp [createInscriptionTxCtxData, compile, inscriptionBuilder, flatMap_data_pushEncode]
  · intro request auxEst auxCommit auxReveal tool h
    unfold newChainInscriptionTool at h
    split at h
    · exact absurd h (by simp)
    · split at h
      · exact absurd h (by simp)
      · split at h
        · exact absurd h (by simp)
        · dsimp only at h
          split at h
          · exact absurd h (by simp)
          · split at h
            · exact absurd h (by simp)
            · rename_i signed hsign
              injection h with h
              rw [← h]

/-- Witness for C8: the concrete compiled envelope bytes. -/
theorem C8_witness :
    (createInscriptionTxCtxData tP tData "wif0").inscriptionScript =
      pushEncode (List.replicate 32 2) ++ [0xac, 0x00, 0x63]
        ++ pushEncode [0x6f, 0x72, 0x64] ++ [0x01, 0x01]
        ++ pushEncode tData.contentType ++ [0x00]
        ++ (chunks tData.body).flatMap pushEncode ++ [0x68] := by
  rw [(C8_envelope tP tData "wif0").1]
  decide

/-! ### Claim C9: the dropped-change fee bound -/

theorem estimate_reveal_one_out (P : Prims) (tx : Tx) (inputs : List PrevOutput)
    (feeRate : ℚ) (totIn fixed minCh : Int) (c : InscriptionTxCtxData) (aux : Nat → Bytes)
    (hins : tx.ins.length > 0) (houts : ¬ tx.outs.length > 1) :
    estimateFeeAndOutput P tx inputs feeRate totIn fixed minCh false (some c) aux =
      .ok ⟨feeFor (P.countAdjustedVsize (tx.setInWitness 0 (List.replicate 64 0 :: c.witness))
          (inputs.map (·.address))) feeRate,
        .amt (totIn - fixed -
          feeFor (P.countAdjustedVsize (tx.setInWitness 0 (List.replicate 64 0 :: c.witness))
            (inputs.map (·.address))) feeRate)⟩ := by
  simp only [estimateFeeAndOutput, simulateWitness_reveal P tx inputs c aux hins]
  rw [if_neg (fun hc => houts hc.2)]

theorem estimate_drop_sentinel (P : Prims) (tx : Tx) (inputs : List PrevOutput)
    (feeRate : ℚ) (totIn fixed minCh : Int) (c : InscriptionTxCtxData) (aux : Nat → Bytes)
    (r : EstResult) (hmcv : 0 ≤ minCh) (hins : tx.ins.length > 0)
    (houts : tx.outs.length > 1)
    (h : estimateFeeAndOutput P tx inputs feeRate totIn fixed minCh false (some c) aux
      = .ok r)
    (hamt : r.changeAmount = .amt (-1)) :
    r.fee = feeFor (P.countAdjustedVsize
        ((Tx.mk tx.version tx.ins (tx.outs.eraseIdx 1)).setInWitness 0
          (List.replicate 64 0 :: c.witness)) (inputs.map (·.address))) feeRate
    ∧ totIn - fixed - r.fee ≥ 0 := by
  by_cases hch : totIn - fixed -
      feeFor (P.countAdjustedVsize (tx.setInWitness 0 (List.replicate 64 0 :: c.witness))
        (inputs.map (·.address))) feeRate ≥ minCh
  · rw [estimate_reveal_retained P tx inputs feeRate totIn fixed minCh c aux hins houts hch]
      at h
    injection h with h
    rw [← h] at hamt
    dsimp only at hamt
    simp only [EstChange.amt.injEq] at hamt
    exact absurd hamt (by omega)
  · rw [estimate_reveal_drop P tx inputs feeRate totIn fixed minCh c aux hins houts
      (by omega)] at h
    split at h
    · rename_i hcond
      injection h with h
      rw [← h]
      refine ⟨rfl, ?_⟩
      dsimp only
      omega
    · injection h with h
      rw [← h] at hamt
      simp at hamt

theorem revealStep_stop_value (P : Prims) (chainIndex i : Nat) (rov : Int) (rfr : ℚ)
    (fca : Address) (mcv : Int) (simBase : PrevOutput) (aux : Nat → Bytes)
    (ctx : InscriptionTxCtxData) (nextCtx : Option InscriptionTxCtxData)
    (prevTx : Tx) (prevVal : Int) (prevIdx : Nat) (tx : Tx) (fee v : Int)
    (hmcv : 0 ≤ mcv)
    (h : revealStep P chainIndex i rov rfr fca mcv simBase aux ctx nextCtx prevTx
      prevVal prevIdx = .stop tx fee v) :
    prevVal - rov - fee ≥ 0 := by
  have hnone := revealStep_stop_isLast P chainIndex i rov rfr fca mcv simBase aux ctx
    nextCtx prevTx prevVal prevIdx tx fee v h
  subst hnone
  revert h
  unfold revealStep
  dsimp only [Option.isNone]
  split
  · intro h
    simp at h
  · split
    · intro h
      simp at h
    · rename_i r heq1
      split
      · intro h
        simp at h
      · rename_i cc heqamt
        split
        · split
          · intro h
            simp at h
          · split
            · intro h
              simp at h
            · rename_i hcneg1 hlast r2 heq2
              intro h
              injection h with h1 h2 h3
              have hins : (revealCandidateTx P ctx fca rov prevTx prevIdx).ins.length > 0 := by
                simp [revealCandidateTx]
              have houts : (revealCandidateTx P ctx fca rov prevTx prevIdx).outs.length > 1 := by
                simp [revealCandidateTx]
              rename_i hc1
              have hdrop := estimate_drop_sentinel P
                (revealCandidateTx P ctx fca rov prevTx prevIdx)
                [{ simBase with amount := prevVal }] rfr prevVal rov mcv ctx aux r hmcv
                hins houts heq1 (by rw [heqamt, hc1])
              have hone := estimate_reveal_one_out P
                { revealCandidateTx P ctx fca rov prevTx prevIdx with
                  outs := (revealCandidateTx P ctx fca rov prevTx prevIdx).outs.dropLast }
                [{ simBase with amount := prevVal }] rfr prevVal rov 0 ctx aux
                (by simp [revealCandidateTx]) (by simp [revealCandidateTx])
              rw [hone] at heq2
              injection heq2 with heq2
              have hfee : fee = r2.fee := h2.symm
              rw [hfee, ← heq2]
              dsimp only
              have hsame : ({ revealCandidateTx P ctx fca rov prevTx prevIdx with
                    outs := (revealCandidateTx P ctx fca rov prevTx prevIdx).outs.dropLast }
                  : Tx)
                  = Tx.mk (revealCandidateTx P ctx fca rov prevTx prevIdx).version
                    (revealCandidateTx P ctx fca rov prevTx prevIdx).ins
                    ((revealCandidateTx P ctx fca rov prevTx prevIdx).outs.eraseIdx 1) := by
                simp [revealCandidateTx]
              rw [hsame]
              rw [← hdrop.1]
              exact hdrop.2
        · split
          · intro h
            simp at h
          · intro h
            simp at h

theorem buildReveals_feesLength (P : Prims) (chainIndex : Nat) (rov : Int) (rfr : ℚ)
    (fca : Address) (mcv : Int) (simBase : PrevOutput) (aux : Nat → Bytes) (ctxStart : Nat)
    (ctxs : List InscriptionTxCtxData) :
    ∀ (i : Nat) (prevTx : Tx) (prevVal : Int) (prevIdx : Nat) txs fees maps,
    buildReveals P chainIndex rov rfr fca mcv simBase aux ctxStart ctxs i prevTx prevVal
      prevIdx = .ok (txs, fees, maps) → fees.length = txs.length := by
  induction ctxs with
  | nil =>
    intro i pT pV pI txs fees maps h
    simp only [buildReveals, Except.ok.injEq, Prod.mk.injEq] at h
    rw [← h.1, ← h.2.1]
    rfl
  | cons ctx rest ih =>
    intro i pT pV pI txs fees maps h
    unfold buildReveals at h
    split at h
    · exact absurd h (by simp)
    · simp only [Except.ok.injEq, Prod.mk.injEq] at h
      rw [← h.1, ← h.2.1]
      rfl
    · rename_i tx fee v hstep
      split at h
      · exact absurd h (by simp)
      · rename_i txs2 fees2 maps2 hrec
        simp only [Except.ok.injEq, Prod.mk.injEq] at h
        rw [← h.1, ← h.2.1]
        simp [ih (i + 1) tx v 1 txs2 fees2 maps2 hrec]

/-- The value of the output spent by the last transaction of a reveal segment,
threading the change value (output index 1) forward; equals the initial
available value when the segment has a single transaction. -/
def lastSpentValue (v : Int) : List Tx → Int
  | [] => v
  | [_] => v
  | t :: t2 :: rest => lastSpentValue ((t.outs.getD 1 ⟨[], 0⟩).value) (t2 :: rest)

theorem getLastD_cons_of_ne {α : Type} (a d : α) (l : List α) (hl : l ≠ []) :
    (a :: l).getLastD d = l.getLastD d := by
  cases l with
  | nil => exact absurd rfl hl
  | cons b t => rfl

theorem buildReveals_lastDropped (P : Prims) (chainIndex : Nat) (rov : Int) (rfr : ℚ)
    (fca : Address) (mcv : Int) (simBase : PrevOutput) (aux : Nat → Bytes) (ctxStart : Nat)
    (hmcv : 0 ≤ mcv) (ctxs : List InscriptionTxCtxData) :
    ∀ (i : Nat) (prevTx : Tx) (prevVal : Int) (prevIdx : Nat) txs fees maps,
    buildReveals P chainIndex rov rfr fca mcv simBase aux ctxStart ctxs i prevTx prevVal
      prevIdx = .ok (txs, fees, maps) →
    txs ≠ [] →
    (txs.getLastD ⟨0, [], []⟩).outs.length = 1 →
    lastSpentValue prevVal txs ≥ rov + (fees.getLastD ⟨0, 0, 0⟩).fee := by
  induction ctxs with
  | nil =>
    intro i pT pV pI txs fees maps h hne hdrop
    simp only [buildReveals, Except.ok.injEq, Prod.mk.injEq] at h
    exact absurd h.1.symm hne
  | cons ctx rest ih =>
    intro i pT pV pI txs fees maps h hne hdrop
    unfold buildReveals at h
    split at h
    · exact absurd h (by simp)
    · rename_i tx fee v hstep
      simp only [Except.ok.injEq, Prod.mk.injEq] at h
      rw [← h.1]
      rw [← h.1] at hdrop
      rw [← h.2.1]
      have := revealStep_stop_value P chainIndex i rov rfr fca mcv simBase aux ctx
        rest.head? pT pV pI tx fee v hmcv hstep
      have hgoal : pV ≥ rov + fee := by omega
      exact hgoal
    · rename_i tx fee v hstep
      obtain ⟨hv, hver, hins, houts⟩ := revealStep_cont_inv P chainIndex i rov rfr fca mcv
        simBase aux ctx rest.head? pT pV pI tx fee v hstep
      split at h
      · exact absurd h (by simp)
      · rename_i txs2 fees2 maps2 hrec
        simp only [Except.ok.injEq, Prod.mk.injEq] at h
        rw [← h.1] at hdrop ⊢
        rw [← h.2.1]
        cases txs2 with
        | nil =>
          have hdrop2 : tx.outs.length = 1 := hdrop
          rw [houts] at hdrop2
          simp at hdrop2
        | cons t2 rest2 =>
          have htxs2ne : (t2 :: rest2) ≠ [] := by simp
          have hlen2 := buildReveals_length P chainIndex rov rfr fca mcv simBase aux
            ctxStart rest (i + 1) tx v 1 (t2 :: rest2) fees2 maps2 hrec
          have hflen2 := buildReveals_feesLength P chainIndex rov rfr fca mcv simBase aux
            ctxStart rest (i + 1) tx v 1 (t2 :: rest2) fees2 maps2 hrec
          have hfees2ne : fees2 ≠ [] := by
            intro hcon
            rw [hcon] at hflen2
            simp at hflen2
          rw [getLastD_cons_of_ne _ _ _ htxs2ne] at hdrop
          rw [getLastD_cons_of_ne _ _ fees2 hfees2ne]
          have hspent : lastSpentValue pV (tx :: t2 :: rest2)
              = lastSpentValue v (t2 :: rest2) := by
            simp only [lastSpentValue]
            rw [houts]
            rfl
          rw [hspent]
          exact ih (i + 1) tx v 1 (t2 :: rest2) fees2 maps2 hrec htxs2ne hdrop

/-- Claim C9 (amended): for every successfully built chain whose final reveal
drops its change output (and a nonnegative minimum change), the final
reveal's input value is at least the reveal dust value plus the fee recorded
for that transaction in the fee ledger (the surplus is paid as extra fee, so
exact equality does not hold in general). -/
theorem C9_final_drop_bound (P : Prims) (utxo : PrevOutput)
    (inscriptions : List InscriptionTxCtxData) (rov : Int) (rfr : ℚ) (fca : Address)
    (mcv : Int) (cfr : ℚ) (s k : Nat) (aux : Nat → Bytes)
    (chain : List Tx) (fees : List FeeEntry) (maps : List CtxEntry)
    (hmcv : 0 ≤ mcv) (hne : inscriptions ≠ [])
    (h : buildSingleUtxoChain P utxo inscriptions rov rfr fca mcv cfr s k aux
      = .ok (chain, fees, maps))
    (hdrop : (chain.getLastD ⟨0, [], []⟩).outs.length = 1) :
    lastSpentValue ((chain.headD ⟨0, [], []⟩).outs.headD ⟨[], 0⟩).value (chain.drop 1)
      ≥ rov + (fees.getLastD ⟨0, 0, 0⟩).fee := by
  cases inscriptions with
  | nil => exact absurd rfl hne
  | cons c0 rest =>
    unfold buildSingleUtxoChain at h
    dsimp only at h
    rw [estimate_commit_eq] at h
    dsimp only at h
    split at h
    · exact absurd h (by simp)
    · split at h
      · exact absurd h (by simp)
      · rename_i txs fees2 maps2 hrec
        simp only [Except.ok.injEq, Prod.mk.injEq] at h
        rw [← h.1] at hdrop ⊢
        rw [← h.2.1]
        have htxsne : txs ≠ [] := by
          intro hcon
          rw [hcon] at hrec
          have := buildReveals_length P k rov rfr fca mcv _ aux s (c0 :: rest) 0 _ _ 0
            [] fees2 maps2 hrec
          simp at this
        have hflen := buildReveals_feesLength P k rov rfr fca mcv _ aux s (c0 :: rest)
          0 _ _ 0 txs fees2 maps2 hrec
        have hfees2ne : fees2 ≠ [] := by
          intro hcon
          rw [hcon] at hflen
          exact htxsne (List.length_eq_zero.mp hflen.symm)
        rw [getLastD_cons_of_ne _ _ _ htxsne] at hdrop
        rw [getLastD_cons_of_ne _ _ fees2 hfees2ne]
        exact buildReveals_lastDropped P k rov rfr fca mcv _ aux s hmcv (c0 :: rest)
          0 _ _ 0 txs fees2 maps2 hrec htxsne hdrop

/-- The concrete chain whose final reveal drops its change. -/
def tBuildDrop : Except BuildErr (List Tx × List FeeEntry × List CtxEntry) :=
  buildSingleUtxoChain tP tUtxoDrop [tCtx] 546 1 [7] 546 1 0 0 auxZ

def tChainDrop : List Tx :=
  match tBuildDrop with
  | .ok (c, _, _) => c
  | .error _ => []

def tFeesDrop : List FeeEntry :=
  match tBuildDrop with
  | .ok (_, f, _) => f
  | .error _ => []

def tMapsDrop : List CtxEntry :=
  match tBuildDrop with
  | .ok (_, _, m) => m
  | .error _ => []

/-- Counterexample to C9 as frozen: in the concrete dropped-change chain the
final reveal's input value is 746 while the reveal dust plus the recorded fee
is 546 + 100 = 646 — strictly smaller, so exact equality fails. -/
theorem C9_counterexample :
    (buildSingleUtxoChain tP tUtxoDrop [tCtx] 546 1 [7] 546 1 0 0 auxZ
      = .ok (tChainDrop, tFeesDrop, tMapsDrop)) ∧
    (tChainDrop.getLastD ⟨0, [], []⟩).outs.length = 1 ∧
    ((tChainDrop.headD ⟨0, [], []⟩).outs.headD ⟨[], 0⟩).value = 746 ∧
    lastSpentValue ((tChainDrop.headD ⟨0, [], []⟩).outs.headD ⟨[], 0⟩).value
      (tChainDrop.drop 1) = 746 ∧
    (tFeesDrop.getLastD ⟨0, 0, 0⟩).fee = 100 ∧
    (746 : Int) ≠ 546 + 100 := by
  refine ⟨by decide, by decide, by decide, by decide, by decide, by decide⟩

/-- Witness for the amended C9 at the concrete dropped-change chain. -/
theorem C9_witness :
    lastSpentValue ((tChainDrop.headD ⟨0, [], []⟩).outs.headD ⟨[], 0⟩).value
      (tChainDrop.drop 1) ≥ 546 + (tFeesDrop.getLastD ⟨0, 0, 0⟩).fee := by
  exact C9_final_drop_bound tP tUtxoDrop [tCtx] 546 1 [7] 546 1 0 0 auxZ tChainDrop
    tFeesDrop tMapsDrop (by decide) (by decide) (by decide) (by decide)

/-! ### Claim C10: zero reveal-out / min-change values default to 546 -/

theorem packageOne_detail (P : Prims) (req : InscriptionRequest)
    (tool : ChainInscriptionTool) (cIdx : Nat) (chain : List Tx) (dtl : LastTxInfo)
    (h : (packageOne P req tool cIdx chain).2.2 = some dtl) :
    dtl.revealOutValue = jsOr req.revealOutValue DEFAULT_REVEAL_OUT_VALUE
    ∧ dtl.minChangeValue = jsOrOpt req.minChangeValue DEFAULT_MIN_CHANGE_VALUE := by
  revert h
  unfold packageOne
  split
  · intro h
    simp at h
  · dsimp only
    repeat' split
    all_goals intro h
    all_goals first
      | (simp only [Option.some.injEq] at h
         rw [← h]
         exact ⟨rfl, rfl⟩)
      | simp at h

theorem packageLoop_all546 (P : Prims) (req : InscriptionRequest)
    (tool : ChainInscriptionTool)
    (hrov : jsOr req.revealOutValue DEFAULT_REVEAL_OUT_VALUE = 546)
    (hmcv : jsOrOpt req.minChangeValue DEFAULT_MIN_CHANGE_VALUE = 546) :
    ∀ (cIdx : Nat) (chains : List (List Tx)),
    ((packageLoop P req tool cIdx chains).2.2).all
      (fun dtl => dtl.revealOutValue == 546 && dtl.minChangeValue == 546) = true := by
  intro cIdx chains
  induction chains generalizing cIdx with
  | nil => rfl
  | cons c rest ih =>
    simp only [packageLoop]
    cases hpo : (packageOne P req tool cIdx c).2.2 with
    | none => exact ih (cIdx + 1)
    | some d =>
      obtain ⟨h1, h2⟩ := packageOne_detail P req tool cIdx c d hpo
      simp only [List.all_cons, ih (cIdx + 1), Bool.and_true]
      rw [h1, h2, hrov, hmcv]
      rfl

/-- Claim C10: a `revealOutValue` of 0 and a `minChangeValue` of 0 (or absent)
are replaced by the default 546 — the tool built from a request carrying 0 is
identical to the tool built with 546, and every RBF detail record reports the
defaulted values 546. -/
theorem C10_zero_defaults (P : Prims) (request : InscriptionRequest)
    (auxEst : Nat → Bytes) (auxCommit auxReveal : Nat → Nat → Bytes) :
    (newChainInscriptionTool P { request with revealOutValue := 0 }
        auxEst auxCommit auxReveal
      = newChainInscriptionTool P { request with revealOutValue := 546 }
        auxEst auxCommit auxReveal)
    ∧ (newChainInscriptionTool P { request with minChangeValue := some 0 }
        auxEst auxCommit auxReveal
      = newChainInscriptionTool P { request with minChangeValue := some 546 }
        auxEst auxCommit auxReveal)
    ∧ (newChainInscriptionTool P { request with minChangeValue := none }
        auxEst auxCommit auxReveal
      = newChainInscriptionTool P { request with minChangeValue := some 546 }
        auxEst auxCommit auxReveal)
    ∧ ((inscribeChain P { request with revealOutValue := 0, minChangeValue := some 0 }
        auxEst auxCommit auxReveal).lastTxDetails.all
        (fun dtl => dtl.revealOutValue == 546 && dtl.minChangeValue == 546) = true) := by
  refine ⟨rfl, rfl, rfl, ?_⟩
  unfold inscribeChain
  cases htool : newChainInscriptionTool P
      { request with revealOutValue := 0, minChangeValue := some 0 }
      auxEst auxCommit auxReveal with
  | error e => rfl
  | ok tool =>
    dsimp only
    exact packageLoop_all546 P
      { request with revealOutValue := 0, minChangeValue := some 0 } tool rfl rfl 0
      tool.txChains

end ChainInscribe
